import Mathlib

/-!
# Bank account management system: ledger core

A shallow embedding of `src/main.cpp` (classes `Transaction`, `Account`, `Bank` and the
command dispatch of `main`), followed by theorems about it.

Modelling conventions.

* `double` is IEEE 754 binary64, the type `Double` below: finite values by sign, exponent
  field and fraction field (both zeros and the subnormals included), the two infinities and
  NaN (payloads are not told apart).  `+`, `-` round to nearest, ties to even; `<`, `<=`
  are the IEEE comparisons, false whenever an operand is NaN.
* `Transaction` reads the wall clock (`time(0)`, `ctime`).  The formatted time string is an
  explicit argument `now` of every operation that builds a record.
* Console output (`cout`) is not part of the state and is dropped.
* `std::map<string, Account>` is a list of key/value pairs with `find`, `operator[]`-assignment
  and `erase`; a pointer to a map entry (`Account*` from `findAccount`) is the entry's key.
* `int accountCounter` is a 32-bit signed integer.
-/

namespace BankSystem

/-! ## The type `double` -/

/-- An IEEE 754 binary64 value.  A finite value is `(-1)^sign * m * 2^(-1074)` with
`m = fraction` when `exponent = 0` (zero and subnormals) and
`m = (2^52 + fraction) * 2^(exponent - 1)` otherwise. -/
inductive Double where
  | finite (sign : Bool) (exponent : Fin 2047) (fraction : Fin 4503599627370496)
  | infinite (sign : Bool)
  | nan
deriving DecidableEq

namespace Double

/-- The magnitude of a finite value, in units of `2^(-1074)`. -/
def magnitude (exponent : Fin 2047) (fraction : Fin 4503599627370496) : Nat :=
  if exponent.val = 0 then fraction.val
  else (4503599627370496 + fraction.val) <<< (exponent.val - 1)

/-- A finite value in units of `2^(-1074)`, as a signed integer. -/
def units (sign : Bool) (exponent : Fin 2047) (fraction : Fin 4503599627370496) : Int :=
  if sign then -(magnitude exponent fraction : Int) else (magnitude exponent fraction : Int)

/-- The position of the leading one bit of `k`, for `0 < k < 2^4096`. -/
def log2 (k : Nat) : Nat :=
  [2048, 1024, 512, 256, 128, 64, 32, 16, 8, 4, 2, 1].foldl
    (fun s j => if k >>> (s + j) = 0 then s else s + j) 0

/-- How far the magnitude `k ≥ 2^52` is shifted right to leave 53 significant bits. -/
def roundShift (k : Nat) : Nat := log2 k - 52

/-- The 53 leading bits of `k ≥ 2^52` as a number, rounded to nearest on the bits shifted
out, a tie going to the even neighbour; the result lies between `2^52` and `2^53`. -/
def roundQuotient (k : Nat) : Nat :=
  let q := k >>> roundShift k
  let rem := k % (1 <<< roundShift k)
  if 1 <<< roundShift k < 2 * rem ∨ (2 * rem = 1 <<< roundShift k ∧ q % 2 = 1) then q + 1
  else q

/-- The binary64 value nearest to `(-1)^sign * k * 2^(-1074)`, ties going to the even
fraction; an infinity when the rounded magnitude is `2^1024` or more. -/
def ofUnits (sign : Bool) (k : Nat) : Double :=
  if h : k < 4503599627370496 then finite sign ⟨0, by decide⟩ ⟨k, h⟩
  else if roundQuotient k = 9007199254740992 then
    if h2 : roundShift k + 2 < 2047 then
      finite sign ⟨roundShift k + 2, h2⟩ ⟨0, by decide⟩
    else infinite sign
  else
    if h2 : roundShift k + 1 < 2047 then
      finite sign ⟨roundShift k + 1, h2⟩
        ⟨(roundQuotient k - 4503599627370496) % 4503599627370496, Nat.mod_lt _ (by decide)⟩
    else infinite sign

/-- Addition `x + y` of two doubles. -/
def add : Double → Double → Double
  | nan, _ => nan
  | _, nan => nan
  | infinite s, infinite t => if s = t then infinite s else nan
  | infinite s, finite _ _ _ => infinite s
  | finite _ _ _, infinite t => infinite t
  | finite s e f, finite s' e' f' =>
    let r : Int := units s e f + units s' e' f'
    if r = 0 then finite (s && s') ⟨0, by decide⟩ ⟨0, by decide⟩
    else ofUnits (decide (r < 0)) r.natAbs

/-- Negation `-x`: the sign bit is flipped. -/
def neg : Double → Double
  | finite s e f => finite (!s) e f
  | infinite s => infinite (!s)
  | nan => nan

/-- Subtraction `x - y`. -/
def sub (x y : Double) : Double := add x (neg y)

/-- Comparison `x < y`. -/
def lt : Double → Double → Bool
  | nan, _ => false
  | _, nan => false
  | infinite s, infinite t => s && !t
  | infinite s, finite _ _ _ => s
  | finite _ _ _, infinite t => !t
  | finite s e f, finite s' e' f' => decide (units s e f < units s' e' f')

/-- Comparison `x <= y`. -/
def le : Double → Double → Bool
  | nan, _ => false
  | _, nan => false
  | infinite s, infinite t => s || !t
  | infinite s, finite _ _ _ => s
  | finite _ _ _, infinite t => !t
  | finite s e f, finite s' e' f' => decide (units s e f ≤ units s' e' f')

/-- The double that a non-negative integer constant denotes. -/
def ofNat (n : Nat) : Double := ofUnits false (n <<< 1074)

instance : Add Double := ⟨add⟩

instance : Sub Double := ⟨sub⟩

instance : Neg Double := ⟨neg⟩

instance : LT Double := ⟨fun x y => lt x y = true⟩

instance : LE Double := ⟨fun x y => le x y = true⟩

instance (x y : Double) : Decidable (x < y) := inferInstanceAs (Decidable (lt x y = true))

instance (x y : Double) : Decidable (x ≤ y) := inferInstanceAs (Decidable (le x y = true))

instance (n : Nat) : OfNat Double n := ⟨ofNat n⟩

/-- Whether the value is finite: neither an infinity nor NaN. -/
def isFinite : Double → Bool
  | finite _ _ _ => true
  | _ => false

/-- The real number a finite double stands for (and 0 for the infinities and NaN, which
stand for none). -/
def value : Double → ℚ
  | finite s e f => (units s e f : ℚ) / 2 ^ 1074
  | _ => 0

/-- The double `r` is finite and stands for exactly the real number `q`. -/
def Exactly (r : Double) (q : ℚ) : Prop := r.isFinite = true ∧ r.value = q

end Double

/-! ## Transaction -/

/-- Class `Transaction` (main.cpp:12-32): the four data members. -/
structure Transaction where
  type : String
  amount : Double
  timestamp : String
  description : String
deriving DecidableEq

/-- Constructor `Transaction(t, a, desc)` (main.cpp:19-24); `now` is the text that
`ctime(&now)` yields with its trailing newline removed. -/
def Transaction.new (now : String) (t : String) (a : Double) (desc : String) : Transaction :=
  { type := t, amount := a, timestamp := now, description := desc }

/-! ## Account -/

/-- Class `Account` (main.cpp:35-41): the five data members. -/
structure Account where
  accountNumber : String
  accountHolder : String
  balance : Double
  accountType : String
  transactionHistory : List Transaction
deriving DecidableEq

namespace Account

/-- Constructor `Account(accNum, holder, type, initialBalance)` (main.cpp:44-49). -/
def new (now : String) (accNum holder type : String) (initialBalance : Double) : Account :=
  { accountNumber := accNum
    accountHolder := holder
    balance := initialBalance
    accountType := type
    transactionHistory :=
      if initialBalance > 0 then [Transaction.new now "Deposit" initialBalance "Initial deposit"]
      else [] }

/-- The statement `transactionHistory.push_back(t)`. -/
def pushTransaction (t : Transaction) (self : Account) : Account :=
  { self with transactionHistory := self.transactionHistory ++ [t] }

/-- Method `Account::deposit` (main.cpp:68-80): the returned flag and the object afterwards. -/
def deposit (self : Account) (now : String) (amount : Double) (description : String) :
    Bool × Account :=
  if amount ≤ 0 then (false, self)
  else
    let self1 := { self with balance := self.balance + amount }
    let description := if description.isEmpty then "Deposit" else description
    (true, pushTransaction (Transaction.new now "Deposit" amount description) self1)

/-- Method `Account::withdraw` (main.cpp:83-99): the returned flag and the object afterwards. -/
def withdraw (self : Account) (now : String) (amount : Double) (description : String) :
    Bool × Account :=
  if amount ≤ 0 then (false, self)
  else if amount > self.balance then (false, self)
  else
    let self1 := { self with balance := self.balance - amount }
    let description := if description.isEmpty then "Withdrawal" else description
    (true, pushTransaction (Transaction.new now "Withdrawal" amount description) self1)

end Account

/-! ## The map of accounts -/

/-- The container `map<string, Account>`: its entries as key/value pairs, one per key. -/
abbrev AccountMap := List (String × Account)

namespace AccountMap

/-- Lookup `m.find(k)`: the mapped account, or `none` for `m.end()`. -/
def find (k : String) : AccountMap → Option Account
  | [] => none
  | (k', v) :: rest => if k' = k then some v else find k rest

/-- Assignment `m[k] = v`: overwrite the entry of `k`, or add one when there is none. -/
def assign (k : String) (v : Account) : AccountMap → AccountMap
  | [] => [(k, v)]
  | (k', v') :: rest => if k' = k then (k', v) :: rest else (k', v') :: assign k v rest

/-- Removal `m.erase(k)`. -/
def erase (k : String) : AccountMap → AccountMap
  | [] => []
  | (k', v') :: rest => if k' = k then erase k rest else (k', v') :: erase k rest

/-- A write through the pointer to the entry of `k`: the account stored there becomes `f` of
itself; nothing happens when there is no such entry. -/
def modify (k : String) (f : Account → Account) : AccountMap → AccountMap
  | [] => []
  | (k', v') :: rest => if k' = k then (k', f v') :: rest else (k', v') :: modify k f rest

end AccountMap

/-- Method `Account::transfer` (main.cpp:102-127).  `this` and `recipient` are references
that may denote the same object, so the method is run on the memory `heap` holding the
accounts, with `self` and `recipient` the keys of the two entries; the statements are applied
in source order.  `now1` and `now2` are the clock readings of the two records.  The result is
`none` when one of the two references is dangling. -/
def Account.transfer (heap : AccountMap) (self recipient : String) (now1 now2 : String)
    (amount : Double) (description : String) : Option (Bool × AccountMap) :=
  match heap.find self, heap.find recipient with
  | some this, some rcpt =>
    if amount ≤ 0 then some (false, heap)
    else if amount > this.balance then some (false, heap)
    else
      let heap1 := heap.modify self (fun a => { a with balance := a.balance - amount })
      let heap2 := heap1.modify recipient (fun a => { a with balance := a.balance + amount })
      let description :=
        if description.isEmpty then "Transfer to " ++ rcpt.accountHolder else description
      let heap3 := heap2.modify self
        (Account.pushTransaction (Transaction.new now1 "Transfer" amount description))
      let heap4 := heap3.modify recipient
        (Account.pushTransaction
          (Transaction.new now2 "Transfer" amount ("Transfer from " ++ this.accountHolder)))
      some (true, heap4)
  | _, _ => none

/-! ## Decimal rendering and the 32-bit counter -/

/-- Decimal digits of `n`, least significant first; `fuel` bounds their number. -/
def decimalDigits : Nat → Nat → List Nat
  | 0, _ => []
  | fuel + 1, n => if n < 10 then [n] else (n % 10) :: decimalDigits fuel (n / 10)

/-- The character of a decimal digit. -/
def digitChar (d : Nat) : Char := Char.ofNat (48 + d)

/-- The digits of a natural number as text, most significant first. -/
def natToString (n : Nat) : String :=
  String.mk ((decimalDigits (n + 1) n).reverse.map digitChar)

/-- Library function `std::to_string(int)`: decimal text, with a leading minus sign for a
negative value. -/
def to_string (n : Int) : String :=
  if n < 0 then "-" ++ natToString n.natAbs else natToString n.natAbs

/-- The value an `int` holds after an arithmetic result `x`: `x` itself inside
`[-2^31, 2^31)`, and the two's-complement wrap outside (C++ leaves signed overflow
undefined; the wrap is what the usual targets produce). -/
def wrap32 (x : Int) : Int := (x + 2147483648) % 4294967296 - 2147483648

/-! ## Bank -/

/-- Class `Bank` (main.cpp:156-159). -/
structure Bank where
  accounts : AccountMap
  accountCounter : Int
deriving DecidableEq

namespace Bank

/-- A freshly constructed `Bank`: no accounts, `accountCounter = 1000`. -/
def empty : Bank := { accounts := [], accountCounter := 1000 }

/-- The account number that the next `createAccount` call builds (main.cpp:164-165). -/
def nextAccountNum (b : Bank) : String := "ACC" ++ to_string (wrap32 (b.accountCounter + 1))

/-- Method `Bank::createAccount` (main.cpp:163-177).  The assignment
`accounts[accountNum] = Account(...)` is read as insert-or-overwrite. -/
def createAccount (b : Bank) (now : String) (holderName accountType : String)
    (initialBalance : Double) : Bool × Bank :=
  let accountCounter := wrap32 (b.accountCounter + 1)
  let accountNum := "ACC" ++ to_string accountCounter
  if (b.accounts.find accountNum).isSome then
    (false, { b with accountCounter := accountCounter })
  else
    (true, { accounts :=
               b.accounts.assign accountNum
                 (Account.new now accountNum holderName accountType initialBalance)
             accountCounter := accountCounter })

/-- Method `Bank::findAccount` (main.cpp:180-186): `none` is `nullptr`. -/
def findAccount (b : Bank) (accountNum : String) : Option Account :=
  b.accounts.find accountNum

/-- Method `Bank::deleteAccount` (main.cpp:212-220). -/
def deleteAccount (b : Bank) (accountNum : String) : Bool × Bank :=
  if (b.accounts.find accountNum).isSome then
    (true, { b with accounts := b.accounts.erase accountNum })
  else (false, b)

end Bank

/-! ## The commands of `main` -/

/-- One state-changing request to the bank, with its arguments. -/
inductive Op where
  | createAccount (now holderName accountType : String) (initialBalance : Double)
  | deposit (now accountNum : String) (amount : Double) (description : String)
  | withdraw (now accountNum : String) (amount : Double) (description : String)
  | transfer (now1 now2 fromAccNum toAccNum : String) (amount : Double) (description : String)
  | deleteAccount (accountNum : String)
deriving DecidableEq

/-- The bank after one request, as `main` serves it (main.cpp:251-375): the account is
resolved with `findAccount`, the method runs on the entry found, and an unknown account
number leaves the bank as it is.  The description is an argument here, where `main` always
passes the empty default. -/
def step (b : Bank) : Op → Bank
  | .createAccount now holderName accountType initialBalance =>
    (b.createAccount now holderName accountType initialBalance).2
  | .deposit now accountNum amount description =>
    match b.findAccount accountNum with
    | some _ =>
      { b with accounts :=
          b.accounts.modify accountNum (fun acc => (acc.deposit now amount description).2) }
    | none => b
  | .withdraw now accountNum amount description =>
    match b.findAccount accountNum with
    | some _ =>
      { b with accounts :=
          b.accounts.modify accountNum (fun acc => (acc.withdraw now amount description).2) }
    | none => b
  | .transfer now1 now2 fromAccNum toAccNum amount description =>
    match Account.transfer b.accounts fromAccNum toAccNum now1 now2 amount description with
    | some (_, heap) => { b with accounts := heap }
    | none => b
  | .deleteAccount accountNum => (b.deleteAccount accountNum).2

/-- The bank after a sequence of requests. -/
def run (b : Bank) (ops : List Op) : Bank := ops.foldl step b

/-- The account numbers built by the `createAccount` calls of a run (main.cpp:165), in call
order. -/
def mintedNumbers (b : Bank) : List Op → List String
  | [] => []
  | .createAccount now holderName accountType initialBalance :: ops =>
    b.nextAccountNum ::
      mintedNumbers (step b (.createAccount now holderName accountType initialBalance)) ops
  | op :: ops => mintedNumbers (step b op) ops

/-- How many `createAccount` calls a run makes. -/
def numCreates : List Op → Nat
  | [] => 0
  | .createAccount _ _ _ _ :: ops => numCreates ops + 1
  | _ :: ops => numCreates ops

/-- The keys of the map. -/
def AccountMap.keys (m : AccountMap) : List String := m.map Prod.fst

/-- Every key of the registry is one of the first `n` numbers minted from the empty bank. -/
def KeysMinted (b : Bank) (n : Nat) : Prop :=
  ∀ k ∈ b.accounts.keys, ∃ i : Nat, i < n ∧ k = "ACC" ++ to_string (wrap32 (1001 + (i : Int)))

/-- Every account stored in the map has a non-negative balance. -/
def BalancesNonneg (m : AccountMap) : Prop := ∀ kv ∈ m, 0 ≤ kv.2.balance

/-- Method `Bank::findAccount` as a call on the bank object: the pointer it returns and the
object afterwards.  The body (main.cpp:181-185) only reads `accounts`. -/
def Bank.findAccountCall (b : Bank) (accountNum : String) : Option Account × Bank :=
  (b.accounts.find accountNum, b)

/-- The wording of the lookup contract, followed along a run `ops` started at `b`: whether
the number `n` was minted by a `createAccount` call with no successful `deleteAccount(n)`
after it.  `live` says whether that held before the run. -/
def issuedAndLive (n : String) : Bank → List Op → Bool → Bool
  | _, [], live => live
  | b, .createAccount now holderName accountType initialBalance :: ops, live =>
    issuedAndLive n (step b (.createAccount now holderName accountType initialBalance)) ops
      (live || decide (b.nextAccountNum = n))
  | b, .deleteAccount accountNum :: ops, live =>
    issuedAndLive n (step b (.deleteAccount accountNum)) ops
      (live && !(decide (accountNum = n) && (b.deleteAccount accountNum).1))
  | b, op :: ops, live => issuedAndLive n (step b op) ops live

/-- Every entry of the map, key and account, satisfies `P`. -/
def AllEntries (P : String → Account → Prop) (m : AccountMap) : Prop := ∀ kv ∈ m, P kv.1 kv.2

/-- The sum, as a real number, of the balances of all accounts of the map (of the finite
ones: an infinite or NaN balance counts 0). -/
def totalBalance (m : AccountMap) : ℚ := (m.map (fun kv => kv.2.balance.value)).sum

/-- Whether the amount that a `deposit`, `withdraw` or `transfer` request passes is finite;
true of the other requests. -/
def Op.finiteAmount : Op → Bool
  | .deposit _ _ amount _ => amount.isFinite
  | .withdraw _ _ amount _ => amount.isFinite
  | .transfer _ _ _ _ amount _ => amount.isFinite
  | _ => true

/-! ## Lemmas on `double` -/

namespace Double

theorem lt_iff (x y : Double) : x < y ↔ lt x y = true := Iff.rfl

theorem le_iff (x y : Double) : x ≤ y ↔ le x y = true := Iff.rfl

theorem zero_eq : (0 : Double) = finite false ⟨0, by decide⟩ ⟨0, by decide⟩ := by decide

theorem units_zero : units false ⟨0, by decide⟩ ⟨0, by decide⟩ = 0 := by decide

theorem units_false_nonneg (e : Fin 2047) (f : Fin 4503599627370496) : 0 ≤ units false e f := by
  unfold units
  exact Int.natCast_nonneg _

theorem not_le_of_lt {x y : Double} (h : x < y) : ¬ y ≤ x := by
  rw [lt_iff] at h
  rw [le_iff]
  rcases x with ⟨s, e, f⟩ | ⟨s⟩ | _ <;> rcases y with ⟨t, e', f'⟩ | ⟨t⟩ | _ <;>
    (try cases s) <;> (try cases t) <;> simp_all [lt, le]

theorem not_lt_of_le {x y : Double} (h : x ≤ y) : ¬ y < x := by
  rw [le_iff] at h
  rw [lt_iff]
  rcases x with ⟨s, e, f⟩ | ⟨s⟩ | _ <;> rcases y with ⟨t, e', f'⟩ | ⟨t⟩ | _ <;>
    (try cases s) <;> (try cases t) <;> simp_all [lt, le]

theorem lt_of_not_le {x y : Double} (hx : x ≠ nan) (hy : y ≠ nan) (h : ¬ x ≤ y) : y < x := by
  rw [le_iff] at h
  rw [lt_iff]
  rcases x with ⟨s, e, f⟩ | ⟨s⟩ | _ <;> rcases y with ⟨t, e', f'⟩ | ⟨t⟩ | _ <;>
    (try cases s) <;> (try cases t) <;> simp_all [lt, le]

theorem le_of_not_lt {x y : Double} (hx : x ≠ nan) (hy : y ≠ nan) (h : ¬ x < y) : y ≤ x := by
  rw [lt_iff] at h
  rw [le_iff]
  rcases x with ⟨s, e, f⟩ | ⟨s⟩ | _ <;> rcases y with ⟨t, e', f'⟩ | ⟨t⟩ | _ <;>
    (try cases s) <;> (try cases t) <;> simp_all [lt, le]

theorem ne_nan_of_lt_right {x y : Double} (h : x < y) : y ≠ nan := by
  rintro rfl
  rw [lt_iff] at h
  cases x <;> simp [lt] at h

theorem ne_nan_of_le_left {x y : Double} (h : x ≤ y) : x ≠ nan := by
  rintro rfl
  rw [le_iff] at h
  simp [le] at h

theorem ne_nan_of_le_right {x y : Double} (h : x ≤ y) : y ≠ nan := by
  rintro rfl
  rw [le_iff] at h
  cases x <;> simp [le] at h

theorem zero_le_finite_iff (s : Bool) (e : Fin 2047) (f : Fin 4503599627370496) :
    (0 : Double) ≤ finite s e f ↔ 0 ≤ units s e f := by
  rw [zero_eq, le_iff]
  simp only [le, decide_eq_true_eq, units_zero]

theorem zero_lt_finite_iff (s : Bool) (e : Fin 2047) (f : Fin 4503599627370496) :
    (0 : Double) < finite s e f ↔ 0 < units s e f := by
  rw [zero_eq, lt_iff]
  simp only [lt, decide_eq_true_eq, units_zero]

theorem finite_le_zero_iff (s : Bool) (e : Fin 2047) (f : Fin 4503599627370496) :
    finite s e f ≤ (0 : Double) ↔ units s e f ≤ 0 := by
  rw [zero_eq, le_iff]
  simp only [le, decide_eq_true_eq, units_zero]

theorem zero_le_infinite : (0 : Double) ≤ infinite false := by decide

theorem zero_le_ofUnits (k : Nat) : (0 : Double) ≤ ofUnits false k := by
  unfold ofUnits
  split
  · rw [zero_le_finite_iff]; exact units_false_nonneg _ _
  · split
    · split
      · rw [zero_le_finite_iff]; exact units_false_nonneg _ _
      · exact zero_le_infinite
    · split
      · rw [zero_le_finite_iff]; exact units_false_nonneg _ _
      · exact zero_le_infinite

end Double
namespace Double

theorem add_def (x y : Double) : x + y = add x y := rfl

theorem sub_def (x y : Double) : x - y = add x (neg y) := rfl

theorem units_not (s : Bool) (e : Fin 2047) (f : Fin 4503599627370496) :
    units (!s) e f = - units s e f := by
  cases s <;> simp [units]

theorem units_zero_fields (s : Bool) : units s ⟨0, by decide⟩ ⟨0, by decide⟩ = 0 := by
  cases s <;> decide

theorem zero_le_add_finite (s s' : Bool) (e e' : Fin 2047) (f f' : Fin 4503599627370496)
    (h : 0 ≤ units s e f + units s' e' f') : (0 : Double) ≤ add (finite s e f) (finite s' e' f') := by
  simp only [add]
  split
  · rw [zero_le_finite_iff, units_zero_fields]
  · have hneg : decide (units s e f + units s' e' f' < 0) = false := by
      simp only [decide_eq_false_iff_not, not_lt]; exact h
    rw [hneg]
    exact zero_le_ofUnits _

/-- Adding a finite amount that is not `≤ 0` to a balance `≥ 0` gives a balance `≥ 0`. -/
theorem zero_le_add {x a : Double} (hx : 0 ≤ x) (hfin : a.isFinite = true) (ha : ¬ a ≤ 0) :
    0 ≤ x + a := by
  rw [add_def]
  rcases a with ⟨s', e', f'⟩ | ⟨s'⟩ | _
  · rcases x with ⟨s, e, f⟩ | ⟨s⟩ | _
    · rw [zero_le_finite_iff] at hx
      rw [finite_le_zero_iff] at ha
      exact zero_le_add_finite _ _ _ _ _ _ (by omega)
    · cases s
      · exact zero_le_infinite
      · exact absurd hx (by decide)
    · exact absurd hx (by decide)
  · cases hfin
  · cases hfin

/-- Taking a finite amount that is not `≤ 0` and not `>` the balance from a balance `≥ 0`
gives a balance `≥ 0`. -/
theorem zero_le_sub {x a : Double} (hx : 0 ≤ x) (hfin : a.isFinite = true) (ha : ¬ a ≤ 0)
    (hle : ¬ a > x) : 0 ≤ x - a := by
  rw [sub_def]
  rcases a with ⟨s', e', f'⟩ | ⟨s'⟩ | _
  · rcases x with ⟨s, e, f⟩ | ⟨s⟩ | _
    · have hle' : ¬ units s e f < units s' e' f' := by
        intro hlt
        exact hle ((lt_iff _ _).mpr (by simp [lt, hlt]))
      simp only [neg]
      exact zero_le_add_finite _ _ _ _ _ _ (by rw [units_not]; omega)
    · cases s
      · exact zero_le_infinite
      · exact absurd hx (by decide)
    · exact absurd hx (by decide)
  · cases hfin
  · cases hfin

theorem shiftRight_eq_zero_iff (k n m : Nat) (hlo : 2 ^ n ≤ k) (hhi : k < 2 ^ (n + 1)) :
    k >>> m = 0 ↔ n < m := by
  rw [Nat.shiftRight_eq_div_pow, Nat.div_eq_zero_iff (Nat.pos_pow_of_pos m (by decide))]
  constructor
  · intro h
    by_contra hnm
    have : 2 ^ m ≤ 2 ^ n := Nat.pow_le_pow_right (by decide) (by omega)
    omega
  · intro h
    have : 2 ^ (n + 1) ≤ 2 ^ m := Nat.pow_le_pow_right (by decide) (by omega)
    omega

theorem log2_step (k n s w j : Nat) (hlo : 2 ^ n ≤ k) (hhi : k < 2 ^ (n + 1))
    (h1 : s ≤ n) (h2 : n < s + w) (hw : w ≤ 2 * j) :
    (if k >>> (s + j) = 0 then s else s + j) ≤ n ∧
      n < (if k >>> (s + j) = 0 then s else s + j) + j := by
  have hiff := shiftRight_eq_zero_iff k n (s + j) hlo hhi
  by_cases hc : k >>> (s + j) = 0
  · have := hiff.mp hc
    simp only [hc, if_true]
    omega
  · have : ¬ n < s + j := fun h => hc (hiff.mpr h)
    simp only [hc, if_false]
    omega

theorem log2_fold (k n : Nat) (hlo : 2 ^ n ≤ k) (hhi : k < 2 ^ (n + 1)) (js : List Nat) :
    ∀ s w : Nat, s ≤ n → n < s + w → List.Chain (fun a b => a ≤ 2 * b) w js →
      js.foldl (fun s j => if k >>> (s + j) = 0 then s else s + j) s ≤ n ∧
        n < js.foldl (fun s j => if k >>> (s + j) = 0 then s else s + j) s
          + (w :: js).getLast (List.cons_ne_nil _ _) := by
  induction js with
  | nil => intro s w h1 h2 _; exact ⟨h1, h2⟩
  | cons j js ih =>
    intro s w h1 h2 hc
    rw [List.chain_cons] at hc
    obtain ⟨hs1, hs2⟩ := log2_step k n s w j hlo hhi h1 h2 hc.1
    have := ih _ j hs1 hs2 hc.2
    rw [List.getLast_cons (List.cons_ne_nil _ _)]
    exact this

/-- The search `log2` finds the position of the leading one bit. -/
theorem log2_eq (k n : Nat) (hlo : 2 ^ n ≤ k) (hhi : k < 2 ^ (n + 1)) (hn : n < 4096) :
    log2 k = n := by
  have h := log2_fold k n hlo hhi [2048, 1024, 512, 256, 128, 64, 32, 16, 8, 4, 2, 1] 0 4096
    (Nat.zero_le _) (by omega) (by simp)
  have hlast : ((4096 : Nat) :: [2048, 1024, 512, 256, 128, 64, 32, 16, 8, 4, 2, 1]).getLast
      (List.cons_ne_nil _ _) = 1 := rfl
  rw [hlast] at h
  exact Nat.le_antisymm h.1 (Nat.lt_succ_iff.mp h.2)

theorem finite_congr (s : Bool) (e1 e2 : Fin 2047) (f1 f2 : Fin 4503599627370496)
    (he : e1.val = e2.val) (hf : f1.val = f2.val) : finite s e1 f1 = finite s e2 f2 := by
  have h1 : e1 = e2 := Fin.ext he
  have h2 : f1 = f2 := Fin.ext hf
  rw [h1, h2]

/-- Rounding the magnitude of a double gives the double back. -/
theorem ofUnits_magnitude (s : Bool) (e : Fin 2047) (f : Fin 4503599627370496) :
    ofUnits s (magnitude e f) = finite s e f := by
  by_cases he : e.val = 0
  · have hm : magnitude e f = f.val := by simp [magnitude, he]
    have hlt : magnitude e f < 4503599627370496 := by rw [hm]; exact f.isLt
    unfold ofUnits
    rw [dif_pos hlt]
    exact finite_congr s _ _ _ _ he.symm hm
  · have hf := f.isLt
    have he' := e.isLt
    have hm : magnitude e f = (4503599627370496 + f.val) * 2 ^ (e.val - 1) := by
      simp [magnitude, he, Nat.shiftLeft_eq]
    have hpos : 0 < 2 ^ (e.val - 1) := Nat.pos_pow_of_pos _ (by decide)
    have hlo : 2 ^ (52 + (e.val - 1)) ≤ magnitude e f := by
      rw [hm, Nat.pow_add]
      exact Nat.mul_le_mul_right _ (by norm_num)
    have hhi : magnitude e f < 2 ^ (52 + (e.val - 1) + 1) := by
      rw [hm, show 52 + (e.val - 1) + 1 = 53 + (e.val - 1) by omega, Nat.pow_add]
      exact Nat.mul_lt_mul_of_pos_right (by norm_num; omega) hpos
    have hlog : log2 (magnitude e f) = 52 + (e.val - 1) := log2_eq _ _ hlo hhi (by omega)
    have hshift : roundShift (magnitude e f) = e.val - 1 := by
      rw [roundShift, hlog]; omega
    have hq : magnitude e f >>> (e.val - 1) = 4503599627370496 + f.val := by
      rw [Nat.shiftRight_eq_div_pow, hm, Nat.mul_div_cancel _ hpos]
    have hrem : magnitude e f % (1 <<< (e.val - 1)) = 0 := by
      rw [Nat.shiftLeft_eq, Nat.one_mul, hm, Nat.mul_mod_left]
    have hquo : roundQuotient (magnitude e f) = 4503599627370496 + f.val := by
      have h1 : ¬ (1 <<< (e.val - 1) < 2 * 0 ∨
          (2 * 0 = 1 <<< (e.val - 1) ∧ (4503599627370496 + f.val) % 2 = 1)) := by
        rw [Nat.shiftLeft_eq, Nat.one_mul]
        omega
      simp only [roundQuotient, hshift, hq, hrem, h1, if_false]
    have hnlt : ¬ magnitude e f < 4503599627370496 := by
      have : 2 ^ 52 ≤ 2 ^ (52 + (e.val - 1)) := Nat.pow_le_pow_right (by decide) (by omega)
      norm_num at this
      omega
    unfold ofUnits
    rw [dif_neg hnlt, if_neg (by rw [hquo]; omega), dif_pos (by rw [hshift]; omega)]
    apply finite_congr
    · simp only [hshift]
      omega
    · simp only [hquo]
      omega

theorem add_finite_eq_of_units (s s' t : Bool) (e e' g : Fin 2047)
    (f f' m : Fin 4503599627370496)
    (h : units s e f + units s' e' f' = units t g m) (hne : units t g m ≠ 0) :
    add (finite s e f) (finite s' e' f') = finite t g m := by
  simp only [add, h, hne, if_false]
  have hsign : decide (units t g m < 0) = t := by
    cases t
    · simp only [units, Bool.false_eq_true, if_false, decide_eq_false_iff_not, not_lt]
      exact Int.natCast_nonneg _
    · simp only [units, if_true] at hne ⊢
      simp only [decide_eq_true_eq]
      omega
  have habs : (units t g m).natAbs = magnitude g m := by
    cases t <;> simp [units]
  rw [hsign, habs, ofUnits_magnitude]

theorem units_eq_of_value (s : Bool) (e : Fin 2047) (f : Fin 4503599627370496)
    (q : ℚ) (u : Int) (hq : q = (u : ℚ) / 2 ^ 1074)
    (h : (finite s e f).value = q) : units s e f = u := by
  simp only [value] at h
  rw [hq] at h
  have hc : (2 : ℚ) ^ 1074 ≠ 0 := pow_ne_zero _ (by norm_num)
  field_simp at h
  exact_mod_cast h

/-- When the difference `x - a` is exact, adding `a` back gives `x`, for `0 < a ≤ x`. -/
theorem sub_add_cancel_of_exact {x a : Double} (hpos : 0 < a) (hle : a ≤ x)
    (hex : (x - a).Exactly (x.value - a.value)) : (x - a) + a = x := by
  obtain ⟨hfin, hval⟩ := hex
  rw [sub_def] at hfin hval
  rw [sub_def, add_def]
  rcases x with ⟨s, e, f⟩ | ⟨s⟩ | _
  · rcases a with ⟨s', e', f'⟩ | ⟨s'⟩ | _
    · rw [zero_lt_finite_iff] at hpos
      have hle' : units s' e' f' ≤ units s e f := by
        rw [le_iff] at hle
        simpa [le] using hle
      simp only [neg] at hfin hval ⊢
      cases hd : add (finite s e f) (finite (!s') e' f') with
      | finite t g m =>
        rw [hd] at hval
        have hu : units t g m = units s e f - units s' e' f' := by
          apply units_eq_of_value t g m _ _ _ hval
          simp only [value]
          push_cast
          ring
        exact add_finite_eq_of_units _ _ _ _ _ _ _ _ _ (by rw [hu]; ring) (by omega)
      | infinite t => rw [hd] at hfin; cases hfin
      | nan => rw [hd] at hfin; cases hfin
    · cases s' <;> simp [neg, add, isFinite] at hfin
    · simp [neg, add, isFinite] at hfin
  · rcases a with ⟨s', e', f'⟩ | ⟨s'⟩ | _
    · simp [neg, add, isFinite] at hfin
    · cases s <;> cases s' <;> simp [neg, add, isFinite] at hfin
    · simp [neg, add, isFinite] at hfin
  · simp [add, isFinite] at hfin

theorem value_finite (s : Bool) (e : Fin 2047) (f : Fin 4503599627370496) :
    (finite s e f).value = (units s e f : ℚ) / 2 ^ 1074 := rfl

/-- Double addition is exact whenever the exact sum of two finite doubles is a double. -/
theorem add_exact (x y d : Double) (hx : x.isFinite = true) (hy : y.isFinite = true)
    (hd : d.Exactly (x.value + y.value)) : (x + y).Exactly (x.value + y.value) := by
  rcases x with ⟨s, e, f⟩ | ⟨s⟩ | _
  · rcases y with ⟨s', e', f'⟩ | ⟨s'⟩ | _
    · rcases d with ⟨t, g, m⟩ | ⟨t⟩ | _
      · have hu : units t g m = units s e f + units s' e' f' := by
          apply units_eq_of_value t g m _ _ _ hd.2
          simp only [value]
          push_cast
          ring
        by_cases h0 : units s e f + units s' e' f' = 0
        · rw [add_def]
          simp only [add, h0, if_true]
          refine ⟨rfl, ?_⟩
          rw [value_finite, value_finite, value_finite, units_zero_fields, ← add_div,
            ← Int.cast_add, h0]
        · rw [add_def, add_finite_eq_of_units s s' t e e' g f f' m hu.symm (by rw [hu]; exact h0)]
          exact hd
      · exact absurd hd.1 (by simp [isFinite])
      · exact absurd hd.1 (by simp [isFinite])
    · cases hy
    · cases hy
  · cases hx
  · cases hx

theorem isFinite_neg (y : Double) : (neg y).isFinite = y.isFinite := by
  cases y <;> rfl

theorem value_neg (y : Double) : (neg y).value = - y.value := by
  cases y with
  | finite s e f =>
    simp only [neg, value, units_not]
    push_cast
    ring
  | infinite s => simp [neg, value]
  | nan => simp [neg, value]

/-- Double subtraction is exact whenever the exact difference of two finite doubles is a
double. -/
theorem sub_exact (x y d : Double) (hx : x.isFinite = true) (hy : y.isFinite = true)
    (hd : d.Exactly (x.value - y.value)) : (x - y).Exactly (x.value - y.value) := by
  have h := add_exact x (neg y) d hx (by rw [isFinite_neg]; exact hy)
    (by rw [value_neg, ← sub_eq_add_neg]; exact hd)
  rw [value_neg, ← sub_eq_add_neg] at h
  exact h

theorem isFinite_of_pos_of_le {a x : Double} (hpos : 0 < a) (hle : a ≤ x)
    (hx : x.isFinite = true) : a.isFinite = true := by
  rcases a with ⟨s, e, f⟩ | ⟨s⟩ | _
  · rfl
  · rcases x with ⟨t, g, m⟩ | ⟨t⟩ | _
    · cases s
      · exact absurd hle (by simp [le_iff, le])
      · exact absurd hpos (by decide)
    · cases hx
    · cases hx
  · exact absurd hpos (by decide)

end Double

/-! ## Lemmas on the map -/

namespace AccountMap

theorem find_modify_self (k : String) (f : Account → Account) (m : AccountMap) :
    find k (modify k f m) = (find k m).map f := by
  induction m with
  | nil => rfl
  | cons kv rest ih =>
    obtain ⟨k', v⟩ := kv
    by_cases h : k' = k <;> simp [find, modify, h, ih]

theorem find_modify_ne (k k' : String) (f : Account → Account) (m : AccountMap)
    (hne : k' ≠ k) : find k' (modify k f m) = find k' m := by
  induction m with
  | nil => rfl
  | cons kv rest ih =>
    obtain ⟨k0, v⟩ := kv
    by_cases h : k0 = k
    · subst h
      simp [find, modify, Ne.symm hne]
    · by_cases h2 : k0 = k' <;> simp [find, modify, h, h2, ih, hne]

theorem find_assign_self (k : String) (v : Account) (m : AccountMap) :
    find k (assign k v m) = some v := by
  induction m with
  | nil => simp [find, assign]
  | cons kv rest ih =>
    obtain ⟨k0, v0⟩ := kv
    by_cases h : k0 = k <;> simp [find, assign, h, ih]

theorem find_assign_ne (k k' : String) (v : Account) (m : AccountMap) (hne : k' ≠ k) :
    find k' (assign k v m) = find k' m := by
  induction m with
  | nil => simp [find, assign, Ne.symm hne]
  | cons kv rest ih =>
    obtain ⟨k0, v0⟩ := kv
    by_cases h : k0 = k
    · subst h
      simp [find, assign, Ne.symm hne]
    · by_cases h2 : k0 = k' <;> simp [find, assign, h, h2, ih, hne]

theorem find_erase_self (k : String) (m : AccountMap) : find k (erase k m) = none := by
  induction m with
  | nil => rfl
  | cons kv rest ih =>
    obtain ⟨k0, v0⟩ := kv
    by_cases h : k0 = k <;> simp [find, erase, h, ih]

theorem find_erase_ne (k k' : String) (m : AccountMap) (hne : k' ≠ k) :
    find k' (erase k m) = find k' m := by
  induction m with
  | nil => rfl
  | cons kv rest ih =>
    obtain ⟨k0, v0⟩ := kv
    by_cases h : k0 = k
    · subst h
      simp [find, erase, Ne.symm hne, ih]
    · by_cases h2 : k0 = k' <;> simp [find, erase, h, h2, ih, hne]

theorem find_eq_none_iff (k : String) (m : AccountMap) : find k m = none ↔ k ∉ keys m := by
  induction m with
  | nil => simp [find, keys]
  | cons kv rest ih =>
    obtain ⟨k0, v0⟩ := kv
    by_cases h : k0 = k
    · simp [find, keys, h]
    · have h' : ¬ k = k0 := fun e => h e.symm
      simpa [find, keys, h, h'] using ih

theorem keys_modify (k : String) (f : Account → Account) (m : AccountMap) :
    keys (modify k f m) = keys m := by
  induction m with
  | nil => rfl
  | cons kv rest ih =>
    obtain ⟨k0, v0⟩ := kv
    by_cases h : k0 = k
    · simp [modify, keys, h]
    · simpa [modify, keys, h] using ih

theorem keys_assign_of_not_mem (k : String) (v : Account) (m : AccountMap)
    (hk : k ∉ keys m) : keys (assign k v m) = keys m ++ [k] := by
  induction m with
  | nil => rfl
  | cons kv rest ih =>
    obtain ⟨k0, v0⟩ := kv
    have h : ¬ k0 = k := fun e => hk (by simp [keys, e])
    have hr : k ∉ keys rest := fun e => hk (by simp [keys] at e ⊢; exact Or.inr e)
    simpa [assign, keys, h] using ih hr

theorem mem_keys_erase (k k' : String) (m : AccountMap) (h : k' ∈ keys (erase k m)) :
    k' ∈ keys m := by
  induction m with
  | nil => exact h
  | cons kv rest ih =>
    obtain ⟨k0, v0⟩ := kv
    by_cases hk : k0 = k
    · simp only [erase, hk, if_true] at h
      simp only [keys, List.map_cons, List.mem_cons]
      exact Or.inr (ih h)
    · simp only [erase, hk, if_false, keys, List.map_cons, List.mem_cons] at h ⊢
      exact h.imp id ih

end AccountMap

/-! ## Account operations -/

theorem value_zero : (0 : Double).value = 0 := by
  rw [Double.zero_eq]
  simp only [Double.value, Double.units_zero]
  norm_num

set_option exponentiation.threshold 2048 in
/-- The value of the double that encodes the natural number `n`. -/
theorem value_of_nat (c : Double) (e : Fin 2047) (f : Fin 4503599627370496) (n : Nat)
    (hc : c = Double.finite false e f) (hm : Double.magnitude e f = n <<< 1074) :
    c.value = n := by
  have hu : Double.units false e f = (n : Int) * 2 ^ 1074 := by
    rw [Double.units, if_neg (by decide), hm, Nat.shiftLeft_eq, Nat.cast_mul, Nat.cast_pow,
      Nat.cast_ofNat]
  rw [hc, Double.value, hu, Int.cast_mul, Int.cast_pow, Int.cast_natCast]
  exact mul_div_cancel_right₀ _ (pow_ne_zero _ (by norm_num))

theorem value_one : (1 : Double).value = 1 := by
  have h := value_of_nat 1 ⟨1023, by decide⟩ ⟨0, by decide⟩ 1 (by decide) (by decide)
  simpa using h

theorem value_ten_pow_16 : (10000000000000000 : Double).value = 10000000000000000 := by
  have h := value_of_nat 10000000000000000 ⟨1076, by decide⟩ ⟨496400372629504, by decide⟩ 10000000000000000
    (by decide) (by decide)
  simpa using h

/-- C7, amended: for every amount `a` that is not NaN, `deposit(a, description)` returns
success exactly when `a > 0`; on success the account afterwards is the old account with the
balance `old + a` of double addition (the sum rounded to the nearest double) and the old log
followed by the single record (Deposit, `a`, description as given or "Deposit" when empty),
and the new balance is exactly the old balance plus `a` whenever both are finite and that
sum is a double; on failure the account, hence its balance and log, is unchanged. -/
theorem deposit_spec (acc : Account) (now : String) (a : Double) (description : String)
    (ha : a ≠ Double.nan) :
    ((acc.deposit now a description).1 = true ↔ 0 < a) ∧
    (0 < a → (acc.deposit now a description).2 =
      { acc with
          balance := acc.balance + a
          transactionHistory := acc.transactionHistory ++
            [{ type := "Deposit", amount := a, timestamp := now,
               description := if description = "" then "Deposit" else description }] }) ∧
    (0 < a → acc.balance.isFinite = true → a.isFinite = true →
      ∀ d : Double, d.Exactly (acc.balance.value + a.value) →
        (acc.deposit now a description).2.balance.Exactly (acc.balance.value + a.value)) ∧
    ((acc.deposit now a description).1 = false → (acc.deposit now a description).2 = acc) := by
  have h0 : (0 : Double) ≠ Double.nan := by decide
  by_cases h : a ≤ 0
  · have h' : ¬ 0 < a := Double.not_lt_of_le h
    simp [Account.deposit, h, h']
  · have h' : 0 < a := Double.lt_of_not_le ha h0 h
    refine ⟨by simp [Account.deposit, h, h'], fun _ => ?_, fun _ hb hfa d hd => ?_,
      fun hf => ?_⟩
    · simp [Account.deposit, h, Account.pushTransaction, Transaction.new, String.isEmpty_iff]
    · simp only [Account.deposit, h, if_false, Account.pushTransaction]
      exact Double.add_exact _ _ d hb hfa hd
    · simp [Account.deposit, h] at hf

/-- Witness of C7: depositing 30 into an account holding 100 succeeds and leaves 130. -/
theorem deposit_spec_witness :
    (Account.new "t0" "ACC1001" "Ann" "Savings" 100).deposit "t1" 30 "" =
      (true,
        { accountNumber := "ACC1001", accountHolder := "Ann", balance := 130,
          accountType := "Savings",
          transactionHistory :=
            [{ type := "Deposit", amount := 100, timestamp := "t0",
               description := "Initial deposit" },
             { type := "Deposit", amount := 30, timestamp := "t1",
               description := "Deposit" }] }) := by
  have h := deposit_spec (Account.new "t0" "ACC1001" "Ann" "Savings" 100) "t1" 30 ""
    (by decide)
  have h2 := h.2.1 (by decide)
  have h1 := h.1.mpr (by decide)
  refine Prod.ext h1 ?_
  rw [h2]
  decide

/-- C7 as stated fails where double addition rounds: depositing 1 into an account holding
10^16 succeeds, yet the new balance is 10^16 again and not the old balance plus 1. -/
theorem deposit_rounds :
    ((Account.new "t0" "ACC1001" "Ann" "Savings" 10000000000000000).deposit "t1" 1 "").1
      = true ∧
    ((Account.new "t0" "ACC1001" "Ann" "Savings" 10000000000000000).deposit "t1" 1
        "").2.balance.value ≠
      (Account.new "t0" "ACC1001" "Ann" "Savings" 10000000000000000).balance.value
        + (1 : Double).value := by
  have hb : ((Account.new "t0" "ACC1001" "Ann" "Savings" 10000000000000000).deposit "t1" 1
      "").2.balance = 10000000000000000 := by decide
  refine ⟨by decide, ?_⟩
  rw [hb]
  simp only [Account.new, value_ten_pow_16, value_one]
  norm_num

/-- C6: `withdraw(a)` returns failure if and only if `a ≤ 0` or `a > balance`, and whenever
it fails the account afterwards equals the account before (same balance, same log). -/
theorem withdraw_failure_iff (acc : Account) (now : String) (a : Double) (description : String) :
    ((acc.withdraw now a description).1 = false ↔ (a ≤ 0 ∨ a > acc.balance)) ∧
    ((acc.withdraw now a description).1 = false →
      (acc.withdraw now a description).2 = acc) := by
  by_cases h1 : a ≤ 0
  · simp [Account.withdraw, h1]
  · by_cases h2 : a > acc.balance
    · simp [Account.withdraw, h1, h2]
    · simp [Account.withdraw, h1, h2]

/-- The memory after a `transfer` call that passes both checks. -/
theorem transfer_of_valid (heap : AccountMap) (self recipient : String) (A B : Account)
    (now1 now2 : String) (a : Double) (description : String)
    (hA : heap.find self = some A) (hB : heap.find recipient = some B)
    (hpos : ¬ a ≤ 0) (hle : ¬ a > A.balance) :
    Account.transfer heap self recipient now1 now2 a description =
      some (true,
        (((heap.modify self (fun x => { x with balance := x.balance - a })).modify recipient
            (fun x => { x with balance := x.balance + a })).modify self
            (Account.pushTransaction (Transaction.new now1 "Transfer" a
              (if description.isEmpty then "Transfer to " ++ B.accountHolder
               else description)))).modify recipient
            (Account.pushTransaction
              (Transaction.new now2 "Transfer" a ("Transfer from " ++ A.accountHolder)))) := by
  simp only [Account.transfer, hA, hB, hpos, hle, if_false]

/-- C3, amended: for two distinct accounts `A` (entry `self`) and `B` (entry `recipient`)
and `0 < a ≤ balance(A)`, `A.transfer(B, a, description)` returns success; afterwards `A`
has the balance `old - a` of double subtraction and `B` the balance `old + a` of double
addition (each rounded to the nearest double), the log of `A` is its old log followed by one
record (Transfer, `a`, description as given or "Transfer to <B's holder>" when empty), the
log of `B` is its old log followed by one record (Transfer, `a`,
"Transfer from <A's holder>"), and no other entry changed; the new balance of `A` is exactly
its old balance minus `a` whenever the old balance is finite and that difference is a
double, and the new balance of `B` exactly its old balance plus `a` whenever both are finite
and that sum is a double. -/
theorem transfer_success (heap : AccountMap) (self recipient : String) (A B : Account)
    (now1 now2 : String) (a : Double) (description : String)
    (hA : heap.find self = some A) (hB : heap.find recipient = some B)
    (hne : self ≠ recipient) (hpos : 0 < a) (hle : a ≤ A.balance) :
    ∃ heap', Account.transfer heap self recipient now1 now2 a description = some (true, heap') ∧
      heap'.find self = some
        { A with
            balance := A.balance - a
            transactionHistory := A.transactionHistory ++
              [{ type := "Transfer", amount := a, timestamp := now1,
                 description :=
                   if description = "" then "Transfer to " ++ B.accountHolder
                   else description }] } ∧
      heap'.find recipient = some
        { B with
            balance := B.balance + a
            transactionHistory := B.transactionHistory ++
              [{ type := "Transfer", amount := a, timestamp := now2,
                 description := "Transfer from " ++ A.accountHolder }] } ∧
      (∀ k, k ≠ self → k ≠ recipient → heap'.find k = heap.find k) ∧
      (A.balance.isFinite = true →
        ∀ d : Double, d.Exactly (A.balance.value - a.value) →
          (A.balance - a).Exactly (A.balance.value - a.value)) ∧
      (B.balance.isFinite = true → a.isFinite = true →
        ∀ d : Double, d.Exactly (B.balance.value + a.value) →
          (B.balance + a).Exactly (B.balance.value + a.value)) := by
  refine ⟨_, transfer_of_valid heap self recipient A B now1 now2 a description hA hB
    (Double.not_le_of_lt hpos) (Double.not_lt_of_le hle), ?_, ?_, ?_,
    fun hb d hd => Double.sub_exact _ _ d hb (Double.isFinite_of_pos_of_le hpos hle hb) hd,
    fun hb hfa d hd => Double.add_exact _ _ d hb hfa hd⟩
  · rw [AccountMap.find_modify_ne _ _ _ _ hne, AccountMap.find_modify_self,
      AccountMap.find_modify_ne _ _ _ _ hne, AccountMap.find_modify_self, hA]
    simp [Account.pushTransaction, Transaction.new, String.isEmpty_iff]
  · rw [AccountMap.find_modify_self, AccountMap.find_modify_ne _ _ _ _ (Ne.symm hne),
      AccountMap.find_modify_self, AccountMap.find_modify_ne _ _ _ _ (Ne.symm hne), hB]
    simp [Account.pushTransaction, Transaction.new]
  · intro k hk1 hk2
    rw [AccountMap.find_modify_ne _ _ _ _ hk2, AccountMap.find_modify_ne _ _ _ _ hk1,
      AccountMap.find_modify_ne _ _ _ _ hk2, AccountMap.find_modify_ne _ _ _ _ hk1]

/-- Witness of C3: Ann (balance 100) transfers 30 to Bob (balance 5) with no description. -/
theorem transfer_success_witness :
    ∃ heap',
      Account.transfer
        [("ACC1001", Account.new "t0" "ACC1001" "Ann" "Savings" 100),
         ("ACC1002", Account.new "t1" "ACC1002" "Bob" "Checking" 5)]
        "ACC1001" "ACC1002" "t2" "t3" 30 "" = some (true, heap') ∧
      (heap'.find "ACC1001").map (fun x => (x.balance, x.transactionHistory.length))
        = some (70, 2) ∧
      (heap'.find "ACC1002").map (fun x => (x.balance, x.transactionHistory.length))
        = some (35, 2) := by
  obtain ⟨heap', h, hs, hr, _⟩ :=
    transfer_success
      [("ACC1001", Account.new "t0" "ACC1001" "Ann" "Savings" 100),
       ("ACC1002", Account.new "t1" "ACC1002" "Bob" "Checking" 5)]
      "ACC1001" "ACC1002" (Account.new "t0" "ACC1001" "Ann" "Savings" 100)
      (Account.new "t1" "ACC1002" "Bob" "Checking" 5) "t2" "t3" 30 ""
      (by decide) (by decide) (by decide) (by decide) (by decide)
  refine ⟨heap', h, ?_, ?_⟩
  · rw [hs]; decide
  · rw [hr]; decide

/-- C3 as stated fails where double subtraction rounds: Ann (balance 10^16) transfers 1 to
Bob (balance 0); the call succeeds and Bob holds 1, yet Ann's balance is 10^16 again and not
her old balance minus 1. -/
theorem transfer_rounds :
    Account.transfer
        [("ACC1001", Account.new "t0" "ACC1001" "Ann" "Savings" 10000000000000000),
         ("ACC1002", Account.new "t1" "ACC1002" "Bob" "Checking" 0)]
        "ACC1001" "ACC1002" "t2" "t3" 1 "" =
      some (true,
        [("ACC1001",
          { accountNumber := "ACC1001", accountHolder := "Ann", balance := 10000000000000000,
            accountType := "Savings",
            transactionHistory :=
              [{ type := "Deposit", amount := 10000000000000000, timestamp := "t0",
                 description := "Initial deposit" },
               { type := "Transfer", amount := 1, timestamp := "t2",
                 description := "Transfer to Bob" }] }),
         ("ACC1002",
          { accountNumber := "ACC1002", accountHolder := "Bob", balance := 1,
            accountType := "Checking",
            transactionHistory :=
              [{ type := "Transfer", amount := 1, timestamp := "t3",
                 description := "Transfer from Ann" }] })]) ∧
    (10000000000000000 : Double).value ≠
      (10000000000000000 : Double).value - (1 : Double).value := by
  refine ⟨by decide, ?_⟩
  rw [value_ten_pow_16, value_one]
  norm_num

/-- C4: `A.transfer(B, a)` returns failure exactly when `a ≤ 0` or `a > balance(A)`, the
sender's balance alone being looked at, and in that case the memory, hence the balance and
the log of both `A` and `B`, is what it was before the call. -/
theorem transfer_failure_iff (heap : AccountMap) (self recipient : String) (A B : Account)
    (now1 now2 : String) (a : Double) (description : String)
    (hA : heap.find self = some A) (hB : heap.find recipient = some B) :
    ∃ ok heap', Account.transfer heap self recipient now1 now2 a description = some (ok, heap') ∧
      (ok = false ↔ (a ≤ 0 ∨ a > A.balance)) ∧
      (ok = false → heap' = heap ∧ heap'.find self = some A ∧ heap'.find recipient = some B) := by
  by_cases h1 : a ≤ 0
  · exact ⟨false, heap, by simp [Account.transfer, hA, hB, h1], by simp [h1],
      fun _ => ⟨rfl, hA, hB⟩⟩
  · by_cases h2 : a > A.balance
    · exact ⟨false, heap, by simp [Account.transfer, hA, hB, h1, h2], by simp [h2],
        fun _ => ⟨rfl, hA, hB⟩⟩
    · refine ⟨true, _, transfer_of_valid heap self recipient A B now1 now2 a description
        hA hB h1 h2, ?_, ?_⟩
      · simp [h1, h2]
      · intro h; cases h

/-- Witness of C4: Ann (balance 100) cannot transfer 130 to Bob, and nothing changes. -/
theorem transfer_failure_iff_witness :
    Account.transfer
      [("ACC1001", Account.new "t0" "ACC1001" "Ann" "Savings" 100),
       ("ACC1002", Account.new "t1" "ACC1002" "Bob" "Checking" 5)]
      "ACC1001" "ACC1002" "t2" "t3" 130 "" =
    some (false,
      [("ACC1001", Account.new "t0" "ACC1001" "Ann" "Savings" 100),
       ("ACC1002", Account.new "t1" "ACC1002" "Bob" "Checking" 5)]) := by
  obtain ⟨ok, heap', h, hiff, hsame⟩ :=
    transfer_failure_iff
      [("ACC1001", Account.new "t0" "ACC1001" "Ann" "Savings" 100),
       ("ACC1002", Account.new "t1" "ACC1002" "Bob" "Checking" 5)]
      "ACC1001" "ACC1002" (Account.new "t0" "ACC1001" "Ann" "Savings" 100)
      (Account.new "t1" "ACC1002" "Bob" "Checking" 5) "t2" "t3" 130 ""
      (by decide) (by decide)
  have hok : ok = false := hiff.mpr (Or.inr (by decide))
  rw [h, hok, (hsame hok).1]

/-! ## Decimal rendering is injective; the counter inside its range -/

theorem decimalDigits_lt (fuel : Nat) : ∀ n d, d ∈ decimalDigits fuel n → d < 10 := by
  induction fuel with
  | zero => intro n d h; simp [decimalDigits] at h
  | succ fuel ih =>
    intro n d h
    by_cases hn : n < 10
    · simp [decimalDigits, hn] at h
      omega
    · simp only [decimalDigits, hn, if_false, List.mem_cons] at h
      rcases h with h | h
      · omega
      · exact ih _ _ h

theorem ofDigits_decimalDigits (fuel : Nat) :
    ∀ n, n < fuel → Nat.ofDigits 10 (decimalDigits fuel n) = n := by
  induction fuel with
  | zero => intro n h; omega
  | succ fuel ih =>
    intro n h
    by_cases hn : n < 10
    · simp [decimalDigits, hn, Nat.ofDigits]
    · have hlt : n / 10 < fuel := by omega
      simp only [decimalDigits, hn, if_false, Nat.ofDigits_cons, ih _ hlt]
      omega

theorem digitChar_inj : ∀ d, d < 10 → ∀ e, e < 10 → digitChar d = digitChar e → d = e := by
  decide

theorem map_digitChar_inj : ∀ (l l' : List Nat), (∀ d ∈ l, d < 10) → (∀ d ∈ l', d < 10) →
    l.map digitChar = l'.map digitChar → l = l' := by
  intro l
  induction l with
  | nil => intro l' _ _ h; cases l' with
    | nil => rfl
    | cons a t => simp at h
  | cons a t ih =>
    intro l' hl hl' h
    cases l' with
    | nil => simp at h
    | cons b t' =>
      simp only [List.map_cons, List.cons.injEq] at h
      have hab := digitChar_inj a (hl a (by simp)) b (hl' b (by simp)) h.1
      have htt := ih t' (fun d hd => hl d (by simp [hd])) (fun d hd => hl' d (by simp [hd])) h.2
      rw [hab, htt]

theorem natToString_inj (n m : Nat) (h : natToString n = natToString m) : n = m := by
  have h1 : (decimalDigits (n + 1) n).reverse.map digitChar
      = (decimalDigits (m + 1) m).reverse.map digitChar := by
    exact congrArg String.data h
  have h2 := map_digitChar_inj _ _
    (fun d hd => decimalDigits_lt _ _ d (List.mem_reverse.mp hd))
    (fun d hd => decimalDigits_lt _ _ d (List.mem_reverse.mp hd)) h1
  have h3 := List.reverse_injective h2
  have h4 := congrArg (Nat.ofDigits 10) h3
  rwa [ofDigits_decimalDigits _ _ (Nat.lt_succ_self n),
    ofDigits_decimalDigits _ _ (Nat.lt_succ_self m)] at h4

theorem to_string_natCast (n : Nat) : to_string (n : Int) = natToString n := by
  simp [to_string]

theorem digitChar_ne_minus : ∀ d, d < 10 → digitChar d ≠ '-' := by
  decide

theorem minus_append_ne_natToString (s : String) (m : Nat) : "-" ++ s ≠ natToString m := by
  intro h
  have h1 := congrArg String.data h
  have hmem : '-' ∈ (natToString m).data := by
    rw [← h1]; simp [String.data_append]
  simp only [natToString, List.mem_map, List.mem_reverse] at hmem
  obtain ⟨d, hd, hd'⟩ := hmem
  exact digitChar_ne_minus d (decimalDigits_lt _ _ d hd) hd'

theorem minus_append_inj (s t : String) (h : "-" ++ s = "-" ++ t) : s = t := by
  have h1 := congrArg String.data h
  simp only [String.data_append, List.append_cancel_left_eq] at h1
  exact String.ext h1

theorem to_string_inj (x y : Int) (h : to_string x = to_string y) : x = y := by
  unfold to_string at h
  by_cases hx : x < 0 <;> by_cases hy : y < 0 <;> simp only [hx, hy, if_true, if_false] at h
  · have := natToString_inj _ _ (minus_append_inj _ _ h)
    omega
  · exact absurd h (minus_append_ne_natToString _ _)
  · exact absurd h.symm (minus_append_ne_natToString _ _)
  · have := natToString_inj _ _ h
    omega

theorem acc_append_inj (s t : String) (h : "ACC" ++ s = "ACC" ++ t) : s = t := by
  have h1 := congrArg String.data h
  simp only [String.data_append, List.append_cancel_left_eq] at h1
  exact String.ext h1

theorem wrap32_of_range (x : Int) (h1 : -2147483648 ≤ x) (h2 : x ≤ 2147483647) : wrap32 x = x := by
  unfold wrap32; omega

theorem wrap32_idem (x : Int) : wrap32 (wrap32 x) = wrap32 x := by
  unfold wrap32; omega

theorem wrap32_add (x : Int) (i : Int) : wrap32 (wrap32 (x + 1) + 1 + i) = wrap32 (x + 1 + (i + 1)) := by
  unfold wrap32; omega

/-! ## Account creation -/

/-- C8: when `createAccount(name, type, b)` inserts an account (it returns
success), the account stored under the minted number was not there before and has holder
`name`, type `type` and balance `b`; for `b > 0` its log is exactly the one record
(Deposit, `b`, "Initial deposit"), of length 1, and for `b = 0`, as for every `b` that is
not `> 0`, its log is empty. -/
theorem createAccount_inserted (b : Bank) (now holderName accountType : String) (bal : Double)
    (hok : (b.createAccount now holderName accountType bal).1 = true) :
    ∃ acc,
      (b.createAccount now holderName accountType bal).2.findAccount b.nextAccountNum
        = some acc ∧
      b.findAccount b.nextAccountNum = none ∧
      acc.accountNumber = b.nextAccountNum ∧
      acc.accountHolder = holderName ∧ acc.accountType = accountType ∧ acc.balance = bal ∧
      (0 < bal →
        acc.transactionHistory =
          [{ type := "Deposit", amount := bal, timestamp := now,
             description := "Initial deposit" }] ∧
        acc.transactionHistory.length = 1) ∧
      (bal = 0 → acc.transactionHistory = []) ∧
      (¬ 0 < bal → acc.transactionHistory = []) := by
  by_cases hfind : (b.accounts.find ("ACC" ++ to_string (wrap32 (b.accountCounter + 1)))).isSome
  · simp [Bank.createAccount, hfind] at hok
  · refine ⟨Account.new now b.nextAccountNum holderName accountType bal, ?_, ?_, rfl, rfl, rfl,
      rfl, ?_, ?_, ?_⟩
    · simp [Bank.createAccount, hfind, Bank.findAccount, Bank.nextAccountNum,
        AccountMap.find_assign_self]
    · simpa [Bank.findAccount, Bank.nextAccountNum] using hfind
    · intro hpos
      simp [Account.new, hpos, Transaction.new]
    · intro hzero
      have h0 : ¬ (0 : Double) < 0 := by decide
      simp [Account.new, hzero, h0]
    · intro hnot
      simp [Account.new, hnot]

/-- Witness of C8 at the empty bank: initial balance 100 gives balance 100 and the single
"Initial deposit" record. -/
theorem createAccount_inserted_witness :
    ∃ acc,
      (Bank.empty.createAccount "t0" "Ann" "Savings" 100).2.findAccount "ACC1001" = some acc ∧
      acc.accountHolder = "Ann" ∧ acc.accountType = "Savings" ∧ acc.balance = 100 ∧
      acc.transactionHistory =
        [{ type := "Deposit", amount := 100, timestamp := "t0",
           description := "Initial deposit" }] := by
  obtain ⟨acc, h1, _, _, h4, h5, h6, h7, _⟩ :=
    createAccount_inserted Bank.empty "t0" "Ann" "Savings" 100 (by decide)
  have hnum : Bank.empty.nextAccountNum = "ACC1001" := by decide
  rw [hnum] at h1
  exact ⟨acc, h1, h4, h5, h6, (h7 (by decide)).1⟩

/-- C2, evaluated at initial balance -5 on the empty bank: `createAccount` returns success
and the registry holds the new account "ACC1001" with balance -5 and an empty log. -/
theorem createAccount_negative_accepted :
    (Bank.empty.createAccount "t0" "Ann" "Savings" (-5)).1 = true ∧
    (Bank.empty.createAccount "t0" "Ann" "Savings" (-5)).2.findAccount "ACC1001" =
      some { accountNumber := "ACC1001", accountHolder := "Ann", balance := -5,
             accountType := "Savings", transactionHistory := [] } := by
  decide

/-- C1, evaluated on the run that creates one account with initial balance -5: the bank
reached holds an account whose balance is negative. -/
theorem negative_balance_reachable :
    ∃ acc, (run Bank.empty [Op.createAccount "t0" "Ann" "Savings" (-5)]).findAccount "ACC1001"
        = some acc ∧ acc.balance < 0 := by
  refine ⟨{ accountNumber := "ACC1001", accountHolder := "Ann", balance := -5,
            accountType := "Savings", transactionHistory := [] }, by decide, by decide⟩

/-! ## Runs: the counter and the keys -/

theorem step_counter (b : Bank) (op : Op) :
    (step b op).accountCounter =
      match op with
      | .createAccount _ _ _ _ => wrap32 (b.accountCounter + 1)
      | _ => b.accountCounter := by
  cases op with
  | createAccount now holderName accountType initialBalance =>
    simp only [step, Bank.createAccount]
    split <;> rfl
  | deposit now accountNum amount description =>
    simp only [step]
    split <;> rfl
  | withdraw now accountNum amount description =>
    simp only [step]
    split <;> rfl
  | transfer now1 now2 fromAccNum toAccNum amount description =>
    simp only [step]
    split <;> rfl
  | deleteAccount accountNum =>
    simp only [step, Bank.deleteAccount]
    split <;> rfl

theorem keys_transfer (heap heap' : AccountMap) (self recipient now1 now2 : String) (a : Double)
    (description : String) (ok : Bool)
    (h : Account.transfer heap self recipient now1 now2 a description = some (ok, heap')) :
    heap'.keys = heap.keys := by
  unfold Account.transfer at h
  split at h
  · split at h
    · cases h; rfl
    · split at h
      · cases h; rfl
      · cases h
        simp only [AccountMap.keys_modify]
  · cases h

theorem keys_step (b : Bank) (op : Op) (k : String) (h : k ∈ (step b op).accounts.keys) :
    k ∈ b.accounts.keys ∨
      ((∃ now holderName accountType initialBalance,
          op = .createAccount now holderName accountType initialBalance) ∧
        k = b.nextAccountNum) := by
  cases op with
  | createAccount now holderName accountType initialBalance =>
    simp only [step, Bank.createAccount] at h
    split at h
    · exact Or.inl h
    · rename_i hfind
      have hnone : b.accounts.find ("ACC" ++ to_string (wrap32 (b.accountCounter + 1))) = none := by
        simpa using hfind
      rw [AccountMap.keys_assign_of_not_mem _ _ _ ((AccountMap.find_eq_none_iff _ _).mp hnone),
        List.mem_append, List.mem_singleton] at h
      exact h.imp id (fun e => ⟨⟨now, holderName, accountType, initialBalance, rfl⟩, e⟩)
  | deposit now accountNum amount description =>
    simp only [step] at h
    split at h
    · rw [AccountMap.keys_modify] at h; exact Or.inl h
    · exact Or.inl h
  | withdraw now accountNum amount description =>
    simp only [step] at h
    split at h
    · rw [AccountMap.keys_modify] at h; exact Or.inl h
    · exact Or.inl h
  | transfer now1 now2 fromAccNum toAccNum amount description =>
    simp only [step] at h
    split at h
    · rename_i ok heap ht
      rw [keys_transfer _ _ _ _ _ _ _ _ _ ht] at h; exact Or.inl h
    · exact Or.inl h
  | deleteAccount accountNum =>
    simp only [step, Bank.deleteAccount] at h
    split at h
    · exact Or.inl (AccountMap.mem_keys_erase _ _ _ h)
    · exact Or.inl h

theorem run_cons (b : Bank) (op : Op) (ops : List Op) :
    run b (op :: ops) = run (step b op) ops := rfl

theorem run_counter (ops : List Op) :
    ∀ b : Bank, wrap32 b.accountCounter = b.accountCounter →
      (run b ops).accountCounter = wrap32 (b.accountCounter + numCreates ops) := by
  induction ops with
  | nil => intro b hb; simpa [run, numCreates] using hb.symm
  | cons op ops ih =>
    intro b hb
    rw [run_cons]
    cases op with
    | createAccount now holderName accountType initialBalance =>
      have hc := step_counter b (.createAccount now holderName accountType initialBalance)
      simp only at hc
      rw [ih _ (by rw [hc]; exact wrap32_idem _), hc]
      simp only [numCreates, Nat.cast_add, Nat.cast_one]
      unfold wrap32; omega
    | deposit now accountNum amount description =>
      have hc := step_counter b (.deposit now accountNum amount description)
      simp only at hc
      rw [ih _ (by rw [hc]; exact hb), hc]; rfl
    | withdraw now accountNum amount description =>
      have hc := step_counter b (.withdraw now accountNum amount description)
      simp only at hc
      rw [ih _ (by rw [hc]; exact hb), hc]; rfl
    | transfer now1 now2 fromAccNum toAccNum amount description =>
      have hc := step_counter b (.transfer now1 now2 fromAccNum toAccNum amount description)
      simp only at hc
      rw [ih _ (by rw [hc]; exact hb), hc]; rfl
    | deleteAccount accountNum =>
      have hc := step_counter b (.deleteAccount accountNum)
      simp only at hc
      rw [ih _ (by rw [hc]; exact hb), hc]; rfl

theorem mintedNumbers_eq (ops : List Op) :
    ∀ b : Bank, wrap32 b.accountCounter = b.accountCounter →
      mintedNumbers b ops =
        (List.range (numCreates ops)).map
          (fun (i : Nat) => "ACC" ++ to_string (wrap32 (b.accountCounter + 1 + (i : Int)))) := by
  induction ops with
  | nil => intro b _; rfl
  | cons op ops ih =>
    intro b hb
    cases op with
    | createAccount now holderName accountType initialBalance =>
      have hc := step_counter b (.createAccount now holderName accountType initialBalance)
      simp only at hc
      simp only [mintedNumbers, numCreates]
      rw [ih _ (by rw [hc]; exact wrap32_idem _), hc, List.range_succ_eq_map, List.map_cons,
        List.map_map]
      congr 1
      · simp [Bank.nextAccountNum]
      · apply List.map_congr_left
        intro i _
        simp only [Function.comp, Nat.succ_eq_add_one, Nat.cast_add, Nat.cast_one]
        rw [wrap32_add]
    | deposit now accountNum amount description =>
      have hc := step_counter b (.deposit now accountNum amount description)
      simp only at hc
      simp only [mintedNumbers, numCreates]
      rw [ih _ (by rw [hc]; exact hb), hc]
    | withdraw now accountNum amount description =>
      have hc := step_counter b (.withdraw now accountNum amount description)
      simp only at hc
      simp only [mintedNumbers, numCreates]
      rw [ih _ (by rw [hc]; exact hb), hc]
    | transfer now1 now2 fromAccNum toAccNum amount description =>
      have hc := step_counter b (.transfer now1 now2 fromAccNum toAccNum amount description)
      simp only at hc
      simp only [mintedNumbers, numCreates]
      rw [ih _ (by rw [hc]; exact hb), hc]
    | deleteAccount accountNum =>
      have hc := step_counter b (.deleteAccount accountNum)
      simp only at hc
      simp only [mintedNumbers, numCreates]
      rw [ih _ (by rw [hc]; exact hb), hc]

theorem numCreates_cons (op : Op) (ops : List Op) :
    numCreates (op :: ops) = numCreates [op] + numCreates ops := by
  cases op <;> simp [numCreates]
  omega

theorem numCreates_replicate (n : Nat) (now holderName accountType : String) (bal : Double) :
    numCreates (List.replicate n (Op.createAccount now holderName accountType bal)) = n := by
  induction n with
  | zero => rfl
  | succ n ih => simp [List.replicate_succ, numCreates, ih]

theorem keysMinted_step (b : Bank) (op : Op) (n : Nat)
    (hc : b.accountCounter = wrap32 (1000 + (n : Int))) (h : KeysMinted b n) :
    KeysMinted (step b op) (n + numCreates [op]) ∧
      (step b op).accountCounter = wrap32 (1000 + ((n + numCreates [op] : Nat) : Int)) := by
  have hs := step_counter b op
  have hcount :
      (step b op).accountCounter = wrap32 (1000 + ((n + numCreates [op] : Nat) : Int)) := by
    cases op <;> simp only [numCreates] <;> simp only at hs <;> rw [hs, hc]
    · push_cast; unfold wrap32; omega
    all_goals simp
  refine ⟨?_, hcount⟩
  intro k hk
  rcases keys_step b op k hk with hold | ⟨⟨now, holderName, accountType, bal, hop⟩, hnew⟩
  · obtain ⟨i, h1, h2⟩ := h k hold
    exact ⟨i, by omega, h2⟩
  · subst hop
    refine ⟨n, by simp [numCreates], ?_⟩
    have hw : wrap32 (b.accountCounter + 1) = wrap32 (1001 + (n : Int)) := by
      rw [hc]; unfold wrap32; omega
    rw [hnew, Bank.nextAccountNum, hw]

theorem keysMinted_run (ops : List Op) :
    ∀ (b : Bank) (n : Nat), b.accountCounter = wrap32 (1000 + (n : Int)) → KeysMinted b n →
      KeysMinted (run b ops) (n + numCreates ops) ∧
        (run b ops).accountCounter = wrap32 (1000 + ((n + numCreates ops : Nat) : Int)) := by
  induction ops with
  | nil => intro b n hc h; exact ⟨h, by simpa [run, numCreates] using hc⟩
  | cons op ops ih =>
    intro b n hc h
    obtain ⟨hk, hc1⟩ := keysMinted_step b op n hc h
    have hn : n + numCreates (op :: ops) = n + numCreates [op] + numCreates ops := by
      rw [numCreates_cons]; omega
    rw [run_cons, hn]
    exact ih (step b op) (n + numCreates [op]) hc1 hk

theorem keysMinted_empty : KeysMinted Bank.empty 0 := by
  intro k hk
  simp [Bank.empty, AccountMap.keys] at hk

/-- In a bank reached before the counter has gone round, the next minted number is no key. -/
theorem nextAccountNum_fresh (ops : List Op) (h : numCreates ops < 4294967296) :
    (run Bank.empty ops).accounts.find (run Bank.empty ops).nextAccountNum = none := by
  obtain ⟨hk, hc⟩ := keysMinted_run ops Bank.empty 0 (by decide) keysMinted_empty
  rw [Nat.zero_add] at hk hc
  rw [AccountMap.find_eq_none_iff]
  intro hmem
  obtain ⟨i, h2, h3⟩ := hk _ hmem
  rw [Bank.nextAccountNum, hc] at h3
  have h4 := to_string_inj _ _ (acc_append_inj _ _ h3)
  unfold wrap32 at h4
  omega

/-! ## Minting -/

/-- C9, amended: in every run from the empty bank that makes at most 2147482647
`createAccount` calls, whatever other calls are interleaved, the k-th `createAccount` call
mints "ACC" followed by the decimal of `1000 + k` (entry `k - 1` of the list below); the
numeric parts of successively minted numbers are strictly increasing, and no two calls mint
the same string. -/
theorem minted_numbers_spec (ops : List Op) (h : numCreates ops ≤ 2147482647) :
    mintedNumbers Bank.empty ops =
      (List.range (numCreates ops)).map (fun (i : Nat) => "ACC" ++ natToString (1001 + i)) ∧
    (mintedNumbers Bank.empty ops).Pairwise
      (fun s t => ∃ c d : Nat, s = "ACC" ++ natToString c ∧ t = "ACC" ++ natToString d ∧ c < d) ∧
    (mintedNumbers Bank.empty ops).Nodup := by
  have e : mintedNumbers Bank.empty ops =
      (List.range (numCreates ops)).map (fun (i : Nat) => "ACC" ++ natToString (1001 + i)) := by
    rw [mintedNumbers_eq ops Bank.empty (by decide)]
    apply List.map_congr_left
    intro i hi
    have hi' : i < numCreates ops := List.mem_range.mp hi
    have hw : wrap32 (Bank.empty.accountCounter + 1 + (i : Int)) = ((1001 + i : Nat) : Int) := by
      have hc0 : Bank.empty.accountCounter = 1000 := rfl
      rw [hc0, wrap32_of_range _ (by omega) (by omega)]
      push_cast; ring
    simp only [hw, to_string_natCast]
  refine ⟨e, ?_, ?_⟩
  · rw [e, List.pairwise_map]
    exact (List.pairwise_lt_range _).imp (fun {a b} hab => ⟨1001 + a, 1001 + b, rfl, rfl, by omega⟩)
  · rw [e]
    refine (List.nodup_range _).map ?_
    intro i j hij
    have := natToString_inj _ _ (acc_append_inj _ _ hij)
    omega

/-- Witness of C9: create, delete the account, create again; the numbers minted are
"ACC1001" and then "ACC1002". -/
theorem minted_numbers_spec_witness :
    mintedNumbers Bank.empty
      [Op.createAccount "t0" "Ann" "Savings" 10, Op.deleteAccount "ACC1001",
       Op.createAccount "t1" "Bob" "Checking" 0] = ["ACC1001", "ACC1002"] := by
  have h := (minted_numbers_spec
    [Op.createAccount "t0" "Ann" "Savings" 10, Op.deleteAccount "ACC1001",
     Op.createAccount "t1" "Bob" "Checking" 0] (by decide)).1
  rw [h]
  decide

/-- C9 as stated fails at k = 2147482648: after 2147482647 earlier `createAccount` calls
the counter is at the top of the `int` range, and the next call mints "ACC-2147483648", not
"ACC" followed by the decimal of 1000 + 2147482648. -/
theorem minted_number_overflow :
    (mintedNumbers Bank.empty
        (List.replicate 2147482648 (Op.createAccount "" "" "" 0)))[2147482647]?
      = some "ACC-2147483648" ∧
    "ACC-2147483648" ≠ "ACC" ++ natToString (1000 + 2147482648) := by
  refine ⟨?_, by decide⟩
  rw [mintedNumbers_eq _ Bank.empty (by decide), numCreates_replicate, List.getElem?_map,
    List.getElem?_range (by norm_num)]
  decide

/-- C10, amended: in every bank reached from the empty bank by a run with fewer than
4294967296 `createAccount` calls, the number minted next is not a key of the registry, so
`createAccount` returns success; afterwards the registry holds the new account under that
number, every other lookup is as before, and the registry has exactly one entry more. -/
theorem createAccount_fresh (ops : List Op) (h : numCreates ops < 4294967296)
    (now holderName accountType : String) (bal : Double) :
    (run Bank.empty ops).findAccount (run Bank.empty ops).nextAccountNum = none ∧
    ((run Bank.empty ops).createAccount now holderName accountType bal).1 = true ∧
    ((run Bank.empty ops).createAccount now holderName accountType bal).2.findAccount
        (run Bank.empty ops).nextAccountNum =
      some (Account.new now (run Bank.empty ops).nextAccountNum holderName accountType bal) ∧
    (∀ k, k ≠ (run Bank.empty ops).nextAccountNum →
      ((run Bank.empty ops).createAccount now holderName accountType bal).2.findAccount k =
        (run Bank.empty ops).findAccount k) ∧
    ((run Bank.empty ops).createAccount now holderName accountType bal).2.accounts.length =
      (run Bank.empty ops).accounts.length + 1 := by
  have hfresh := nextAccountNum_fresh ops h
  generalize run Bank.empty ops = b at hfresh ⊢
  have hfind : b.accounts.find ("ACC" ++ to_string (wrap32 (b.accountCounter + 1))) = none :=
    hfresh
  refine ⟨hfresh, ?_, ?_, ?_, ?_⟩
  · simp [Bank.createAccount, hfind]
  · simp [Bank.createAccount, hfind, Bank.findAccount, Bank.nextAccountNum,
      AccountMap.find_assign_self]
  · intro k hk
    simp only [Bank.nextAccountNum] at hk
    simp [Bank.createAccount, hfind, Bank.findAccount, AccountMap.find_assign_ne _ _ _ _ hk]
  · have hlen : ∀ m : AccountMap, m.length = m.keys.length := fun m => by
      simp [AccountMap.keys]
    simp only [Bank.createAccount, hfind, Option.isSome_none, Bool.false_eq_true, if_false]
    rw [hlen, AccountMap.keys_assign_of_not_mem _ _ _ ((AccountMap.find_eq_none_iff _ _).mp hfind),
      List.length_append, hlen]
    rfl

/-- Witness of C10: after one account was created and deleted, the next `createAccount`
succeeds and stores the new account under "ACC1002". -/
theorem createAccount_fresh_witness :
    ((run Bank.empty [Op.createAccount "t0" "Ann" "Savings" 10, Op.deleteAccount "ACC1001"]
        ).createAccount "t1" "Bob" "Checking" 0).1 = true ∧
    (run Bank.empty [Op.createAccount "t0" "Ann" "Savings" 10, Op.deleteAccount "ACC1001"]
        ).nextAccountNum = "ACC1002" :=
  ⟨(createAccount_fresh
      [Op.createAccount "t0" "Ann" "Savings" 10, Op.deleteAccount "ACC1001"] (by decide)
      "t1" "Bob" "Checking" 0).2.1, by decide⟩

theorem find_isSome_step_create (b : Bank) (k now holderName accountType : String) (bal : Double)
    (hk : (b.accounts.find k).isSome) :
    ((step b (.createAccount now holderName accountType bal)).accounts.find k).isSome := by
  simp only [step, Bank.createAccount]
  split
  · exact hk
  · by_cases e : k = "ACC" ++ to_string (wrap32 (b.accountCounter + 1))
    · rw [e, AccountMap.find_assign_self]; rfl
    · rw [AccountMap.find_assign_ne _ _ _ _ e]; exact hk

theorem find_isSome_run_creates (n : Nat) (k now holderName accountType : String) (bal : Double) :
    ∀ b : Bank, (b.accounts.find k).isSome →
      ((run b (List.replicate n (Op.createAccount now holderName accountType bal))).accounts.find
        k).isSome := by
  induction n with
  | zero => intro b hk; exact hk
  | succ n ih =>
    intro b hk
    rw [List.replicate_succ, run_cons]
    exact ih _ (find_isSome_step_create b k now holderName accountType bal hk)

/-- C10 as stated fails once the 32-bit counter has gone round: after 4294967296
`createAccount` calls on the empty bank the counter is back at 1000 while "ACC1001" is still
a key, and the next `createAccount` takes the "Account already exists" branch. -/
theorem createAccount_collision :
    ((run Bank.empty (List.replicate 4294967296 (Op.createAccount "" "" "" 0))).createAccount
      "" "" "" 0).1 = false := by
  have hn : (4294967296 : Nat) = 4294967295 + 1 := by norm_num
  have hcount :
      (run Bank.empty (List.replicate 4294967296 (Op.createAccount "" "" "" 0))).accountCounter
        = 1000 := by
    rw [run_counter _ _ (by decide), numCreates_replicate]
    decide
  have hkey :
      ((run Bank.empty (List.replicate 4294967296 (Op.createAccount "" "" "" 0))).accounts.find
        "ACC1001").isSome := by
    rw [hn, List.replicate_succ, run_cons]
    exact find_isSome_run_creates _ _ _ _ _ _ _ (by decide)
  have hnum : "ACC" ++ to_string (wrap32 (1000 + 1)) = "ACC1001" := by decide
  simp only [Bank.createAccount, hcount, hnum, hkey, if_true]

/-! ## Balances -/

theorem find_mem (k : String) (a : Account) (m : AccountMap) (h : m.find k = some a) :
    (k, a) ∈ m := by
  induction m with
  | nil => simp [AccountMap.find] at h
  | cons kv rest ih =>
    obtain ⟨k0, v0⟩ := kv
    by_cases hk : k0 = k
    · simp [AccountMap.find, hk] at h
      simp [hk, h]
    · simp only [AccountMap.find, hk, if_false] at h
      exact List.mem_cons_of_mem _ (ih h)

theorem balancesNonneg_modify (k : String) (f : Account → Account) (m : AccountMap)
    (hf : ∀ a, m.find k = some a → 0 ≤ a.balance → 0 ≤ (f a).balance)
    (h : BalancesNonneg m) : BalancesNonneg (m.modify k f) := by
  induction m with
  | nil => exact h
  | cons kv rest ih =>
    obtain ⟨k0, v0⟩ := kv
    have h0 : 0 ≤ v0.balance := h (k0, v0) (by simp)
    have hrest : BalancesNonneg rest := fun kv hkv => h kv (List.mem_cons_of_mem _ hkv)
    by_cases hk : k0 = k
    · simp only [AccountMap.modify, hk, if_true]
      intro kv hkv
      rcases List.mem_cons.mp hkv with e | e
      · rw [e]; exact hf v0 (by simp [AccountMap.find, hk]) h0
      · exact hrest kv e
    · simp only [AccountMap.modify, hk, if_false]
      intro kv hkv
      rcases List.mem_cons.mp hkv with e | e
      · rw [e]; exact h0
      · exact ih (fun a ha => hf a (by simpa [AccountMap.find, hk] using ha)) hrest kv e

theorem balancesNonneg_assign (k : String) (v : Account) (m : AccountMap)
    (hv : 0 ≤ v.balance) (h : BalancesNonneg m) : BalancesNonneg (m.assign k v) := by
  induction m with
  | nil =>
    intro kv hkv
    simp only [AccountMap.assign, List.mem_singleton] at hkv
    rw [hkv]; exact hv
  | cons kv rest ih =>
    obtain ⟨k0, v0⟩ := kv
    have h0 : 0 ≤ v0.balance := h (k0, v0) (by simp)
    have hrest : BalancesNonneg rest := fun kv hkv => h kv (List.mem_cons_of_mem _ hkv)
    by_cases hk : k0 = k
    · simp only [AccountMap.assign, hk, if_true]
      intro kv hkv
      rcases List.mem_cons.mp hkv with e | e
      · rw [e]; exact hv
      · exact hrest kv e
    · simp only [AccountMap.assign, hk, if_false]
      intro kv hkv
      rcases List.mem_cons.mp hkv with e | e
      · rw [e]; exact h0
      · exact ih hrest kv e

theorem balancesNonneg_erase (k : String) (m : AccountMap) (h : BalancesNonneg m) :
    BalancesNonneg (m.erase k) := by
  induction m with
  | nil => exact h
  | cons kv rest ih =>
    obtain ⟨k0, v0⟩ := kv
    have hrest : BalancesNonneg rest := fun kv hkv => h kv (List.mem_cons_of_mem _ hkv)
    by_cases hk : k0 = k
    · simp only [AccountMap.erase, hk, if_true]
      exact ih hrest
    · simp only [AccountMap.erase, hk, if_false]
      intro kv hkv
      rcases List.mem_cons.mp hkv with e | e
      · rw [e]; exact h (k0, v0) (by simp)
      · exact ih hrest kv e

theorem deposit_balance_nonneg (acc : Account) (now : String) (a : Double)
    (description : String) (hfin : a.isFinite = true) (h : 0 ≤ acc.balance) :
    0 ≤ (acc.deposit now a description).2.balance := by
  by_cases ha : a ≤ 0
  · simpa [Account.deposit, ha] using h
  · simp only [Account.deposit, ha, if_false, Account.pushTransaction]
    exact Double.zero_le_add h hfin ha

theorem withdraw_balance_nonneg (acc : Account) (now : String) (a : Double)
    (description : String) (hfin : a.isFinite = true) (h : 0 ≤ acc.balance) :
    0 ≤ (acc.withdraw now a description).2.balance := by
  by_cases ha : a ≤ 0
  · simpa [Account.withdraw, ha] using h
  · by_cases hb : a > acc.balance
    · simpa [Account.withdraw, ha, hb] using h
    · simp only [Account.withdraw, ha, hb, if_false, Account.pushTransaction]
      exact Double.zero_le_sub h hfin ha hb

theorem balancesNonneg_transfer (heap heap' : AccountMap) (self recipient now1 now2 : String)
    (a : Double) (description : String) (ok : Bool) (hfin : a.isFinite = true)
    (h : Account.transfer heap self recipient now1 now2 a description = some (ok, heap'))
    (hb : BalancesNonneg heap) : BalancesNonneg heap' := by
  unfold Account.transfer at h
  split at h
  · rename_i this rcpt hthis hrcpt
    split at h
    · cases h; exact hb
    · split at h
      · cases h; exact hb
      · rename_i hpos hle
        cases h
        refine balancesNonneg_modify _ _ _ (fun x _ hx => hx)
          (balancesNonneg_modify _ _ _ (fun x _ hx => hx)
            (balancesNonneg_modify _ _ _ (fun x _ hx => ?_)
              (balancesNonneg_modify _ _ _ (fun x hfx hx => ?_) hb)))
        · exact Double.zero_le_add hx hfin hpos
        · rw [hthis] at hfx
          cases hfx
          exact Double.zero_le_sub hx hfin hpos hle
  · cases h

theorem balancesNonneg_step (b : Bank) (op : Op)
    (hop : ∀ now holderName accountType bal,
      op = .createAccount now holderName accountType bal → 0 ≤ bal)
    (hfin : op.finiteAmount = true)
    (hb : BalancesNonneg b.accounts) : BalancesNonneg (step b op).accounts := by
  cases op with
  | createAccount now holderName accountType initialBalance =>
    simp only [step, Bank.createAccount]
    split
    · exact hb
    · exact balancesNonneg_assign _ _ _ (hop _ _ _ _ rfl) hb
  | deposit now accountNum amount description =>
    simp only [step]
    split
    · exact balancesNonneg_modify _ _ _
        (fun x _ hx => deposit_balance_nonneg x now amount description hfin hx) hb
    · exact hb
  | withdraw now accountNum amount description =>
    simp only [step]
    split
    · exact balancesNonneg_modify _ _ _
        (fun x _ hx => withdraw_balance_nonneg x now amount description hfin hx) hb
    · exact hb
  | transfer now1 now2 fromAccNum toAccNum amount description =>
    simp only [step]
    split
    · rename_i ok heap ht
      exact balancesNonneg_transfer _ _ _ _ _ _ _ _ _ hfin ht hb
    · exact hb
  | deleteAccount accountNum =>
    simp only [step, Bank.deleteAccount]
    split
    · exact balancesNonneg_erase _ _ hb
    · exact hb

theorem balancesNonneg_run (ops : List Op) :
    ∀ b : Bank,
      (∀ now holderName accountType bal,
        Op.createAccount now holderName accountType bal ∈ ops → 0 ≤ bal) →
      (∀ op ∈ ops, op.finiteAmount = true) →
      BalancesNonneg b.accounts → BalancesNonneg (run b ops).accounts := by
  induction ops with
  | nil => intro b _ _ hb; exact hb
  | cons op ops ih =>
    intro b hops hfin hb
    rw [run_cons]
    refine ih _ (fun now holderName accountType bal hmem =>
      hops now holderName accountType bal (List.mem_cons_of_mem _ hmem))
      (fun op' hmem => hfin op' (List.mem_cons_of_mem _ hmem)) ?_
    exact balancesNonneg_step b op
      (fun now holderName accountType bal e =>
        hops now holderName accountType bal (by rw [e]; exact List.mem_cons_self _ _))
      (hfin op (List.mem_cons_self _ _)) hb

/-- The balance invariant once negative initial balances are set aside: in every bank reached
from the empty bank by a run whose `createAccount` calls all pass an initial balance `≥ 0`
and whose `deposit`, `withdraw` and `transfer` calls all pass a finite amount, of either
sign, every account of the registry has balance `≥ 0`. -/
theorem balance_nonneg_of_nonneg_initial (ops : List Op)
    (hops : ∀ now holderName accountType bal,
      Op.createAccount now holderName accountType bal ∈ ops → 0 ≤ bal)
    (hfin : ∀ op ∈ ops, op.finiteAmount = true)
    (k : String) (acc : Account) (h : (run Bank.empty ops).findAccount k = some acc) :
    0 ≤ acc.balance :=
  balancesNonneg_run ops Bank.empty hops hfin (fun _ hkv => by simp [Bank.empty] at hkv)
    (k, acc) (find_mem k acc _ h)

/-! ## Deleting an account -/

theorem erase_eq_filter (k : String) (m : AccountMap) :
    m.erase k = m.filter (fun kv => decide (kv.1 ≠ k)) := by
  induction m with
  | nil => rfl
  | cons kv rest ih =>
    obtain ⟨k0, v0⟩ := kv
    by_cases hk : k0 = k <;> simp [AccountMap.erase, hk, ih]

/-- C12: `deleteAccount(n)` returns success if and only if `n` is a key of the registry; on
success the registry afterwards is the old one with the entries of key `n` filtered out, so
`n` is no key any more and every other lookup is as before; on failure the registry is
unchanged; in both cases `accountCounter` is unchanged. -/
theorem deleteAccount_spec (b : Bank) (n : String) :
    ((b.deleteAccount n).1 = true ↔ n ∈ b.accounts.keys) ∧
    ((b.deleteAccount n).1 = true →
      (b.deleteAccount n).2.accounts = b.accounts.filter (fun kv => decide (kv.1 ≠ n)) ∧
      (b.deleteAccount n).2.findAccount n = none ∧
      n ∉ (b.deleteAccount n).2.accounts.keys ∧
      ∀ k, k ≠ n → (b.deleteAccount n).2.findAccount k = b.findAccount k) ∧
    ((b.deleteAccount n).1 = false → (b.deleteAccount n).2.accounts = b.accounts) ∧
    (b.deleteAccount n).2.accountCounter = b.accountCounter := by
  by_cases hfind : (b.accounts.find n).isSome
  · have hmem : n ∈ b.accounts.keys := by
      by_contra hnot
      rw [(AccountMap.find_eq_none_iff _ _).mpr hnot] at hfind
      cases hfind
    refine ⟨by simp [Bank.deleteAccount, hfind, hmem], fun _ => ⟨?_, ?_, ?_, ?_⟩,
      by simp [Bank.deleteAccount, hfind], by simp [Bank.deleteAccount, hfind]⟩
    · simp [Bank.deleteAccount, hfind, erase_eq_filter]
    · simp [Bank.deleteAccount, hfind, Bank.findAccount, AccountMap.find_erase_self]
    · rw [← AccountMap.find_eq_none_iff]
      simp [Bank.deleteAccount, hfind, AccountMap.find_erase_self]
    · intro k hk
      simp [Bank.deleteAccount, hfind, Bank.findAccount, AccountMap.find_erase_ne _ _ _ hk]
  · have hnone : b.accounts.find n = none := by simpa using hfind
    have hmem : n ∉ b.accounts.keys := (AccountMap.find_eq_none_iff _ _).mp hnone
    refine ⟨by simp [Bank.deleteAccount, hnone, hmem], fun h => ?_,
      by simp [Bank.deleteAccount, hnone], by simp [Bank.deleteAccount, hnone]⟩
    simp [Bank.deleteAccount, hnone] at h

/-! ## What a call leaves of an account -/

theorem find_modify_rel (R : Account → Account → Prop) (hrefl : ∀ x, R x x)
    (k0 : String) (f : Account → Account) (hf : ∀ x, R x (f x))
    (m : AccountMap) (k : String) (acc : Account) (h : m.find k = some acc) :
    ∃ acc', (m.modify k0 f).find k = some acc' ∧ R acc acc' := by
  by_cases hk : k = k0
  · subst hk
    exact ⟨f acc, by rw [AccountMap.find_modify_self, h]; rfl, hf acc⟩
  · exact ⟨acc, by rw [AccountMap.find_modify_ne _ _ _ _ hk, h], hrefl acc⟩

/-- Every account of the memory is related by `R` to what `transfer` leaves under its key,
when `R` is reflexive and transitive and holds across a balance update and a `push_back`. -/
theorem transfer_rel (R : Account → Account → Prop) (hrefl : ∀ x, R x x)
    (htrans : ∀ x y z, R x y → R y z → R x z)
    (hbal : ∀ (x : Account) (q : Double), R x { x with balance := q })
    (hpush : ∀ (x : Account) (t : Transaction), R x (Account.pushTransaction t x))
    (heap heap' : AccountMap) (self recipient now1 now2 : String) (a : Double)
    (description : String) (ok : Bool)
    (h : Account.transfer heap self recipient now1 now2 a description = some (ok, heap'))
    (k : String) (acc : Account) (hk : heap.find k = some acc) :
    ∃ acc', heap'.find k = some acc' ∧ R acc acc' := by
  unfold Account.transfer at h
  split at h
  · split at h
    · cases h; exact ⟨acc, hk, hrefl acc⟩
    · split at h
      · cases h; exact ⟨acc, hk, hrefl acc⟩
      · cases h
        obtain ⟨x1, h1, r1⟩ := find_modify_rel R hrefl self
          (fun x => { x with balance := x.balance - a }) (fun x => hbal x _) heap k acc hk
        obtain ⟨x2, h2, r2⟩ := find_modify_rel R hrefl recipient
          (fun x => { x with balance := x.balance + a }) (fun x => hbal x _) _ k x1 h1
        obtain ⟨x3, h3, r3⟩ := find_modify_rel R hrefl self _ (fun x => hpush x _) _ k x2 h2
        obtain ⟨x4, h4, r4⟩ := find_modify_rel R hrefl recipient _ (fun x => hpush x _) _ k x3 h3
        exact ⟨x4, h4, htrans _ _ _ (htrans _ _ _ (htrans _ _ _ r1 r2) r3) r4⟩
  · cases h

/-- With both references valid, `transfer` returns. -/
theorem transfer_returns (heap : AccountMap) (self recipient : String) (A B : Account)
    (now1 now2 : String) (a : Double) (description : String)
    (hA : heap.find self = some A) (hB : heap.find recipient = some B) :
    ∃ ok heap', Account.transfer heap self recipient now1 now2 a description
      = some (ok, heap') := by
  simp only [Account.transfer, hA, hB]
  split
  · exact ⟨_, _, rfl⟩
  · split <;> exact ⟨_, _, rfl⟩

/-- C15: the log is append-only.  For `deposit` and `withdraw`, successful or rejected, the
account's log before the call is a prefix of its log after the call; a `transfer` call on
two valid references (sender and recipient distinct or the same, successful or rejected)
returns, and every account of the memory, the sender and the recipient among them, has its
old log as a prefix of its log afterwards. -/
theorem log_append_only :
    (∀ (acc : Account) (now : String) (a : Double) (description : String),
      acc.transactionHistory <+: (acc.deposit now a description).2.transactionHistory) ∧
    (∀ (acc : Account) (now : String) (a : Double) (description : String),
      acc.transactionHistory <+: (acc.withdraw now a description).2.transactionHistory) ∧
    (∀ (heap : AccountMap) (self recipient : String) (A B : Account) (now1 now2 : String)
        (a : Double) (description : String),
      heap.find self = some A → heap.find recipient = some B →
      ∃ ok heap', Account.transfer heap self recipient now1 now2 a description
          = some (ok, heap') ∧
        ∀ k acc, heap.find k = some acc →
          ∃ acc', heap'.find k = some acc' ∧
            acc.transactionHistory <+: acc'.transactionHistory) := by
  refine ⟨?_, ?_, ?_⟩
  · intro acc now a description
    by_cases h : a ≤ 0
    · simp [Account.deposit, h]
    · simp [Account.deposit, h, Account.pushTransaction]
  · intro acc now a description
    by_cases h : a ≤ 0
    · simp [Account.withdraw, h]
    · by_cases h2 : a > acc.balance
      · simp [Account.withdraw, h, h2]
      · simp [Account.withdraw, h, h2, Account.pushTransaction]
  · intro heap self recipient A B now1 now2 a description hA hB
    obtain ⟨ok, heap', ht⟩ :=
      transfer_returns heap self recipient A B now1 now2 a description hA hB
    refine ⟨ok, heap', ht, fun k acc hk => ?_⟩
    exact transfer_rel (fun x y => x.transactionHistory <+: y.transactionHistory)
      (fun x => List.prefix_refl _) (fun x y z hxy hyz => List.IsPrefix.trans hxy hyz)
      (fun x q => List.prefix_refl _)
      (fun x t => List.prefix_append _ _)
      heap heap' self recipient now1 now2 a description ok ht k acc hk

/-- C16: `deposit`, `withdraw` and `transfer` leave `accountNumber`, `accountHolder` and
`accountType` of every account as they were, on the sender and on the recipient, whether the
call succeeds or is rejected. -/
theorem identity_fields_unchanged :
    (∀ (acc : Account) (now : String) (a : Double) (description : String),
      (acc.deposit now a description).2.accountNumber = acc.accountNumber ∧
      (acc.deposit now a description).2.accountHolder = acc.accountHolder ∧
      (acc.deposit now a description).2.accountType = acc.accountType) ∧
    (∀ (acc : Account) (now : String) (a : Double) (description : String),
      (acc.withdraw now a description).2.accountNumber = acc.accountNumber ∧
      (acc.withdraw now a description).2.accountHolder = acc.accountHolder ∧
      (acc.withdraw now a description).2.accountType = acc.accountType) ∧
    (∀ (heap : AccountMap) (self recipient : String) (A B : Account) (now1 now2 : String)
        (a : Double) (description : String),
      heap.find self = some A → heap.find recipient = some B →
      ∃ ok heap', Account.transfer heap self recipient now1 now2 a description
          = some (ok, heap') ∧
        ∀ k acc, heap.find k = some acc →
          ∃ acc', heap'.find k = some acc' ∧
            acc'.accountNumber = acc.accountNumber ∧
            acc'.accountHolder = acc.accountHolder ∧
            acc'.accountType = acc.accountType) := by
  refine ⟨?_, ?_, ?_⟩
  · intro acc now a description
    by_cases h : a ≤ 0
    · simp [Account.deposit, h]
    · simp [Account.deposit, h, Account.pushTransaction]
  · intro acc now a description
    by_cases h : a ≤ 0
    · simp [Account.withdraw, h]
    · by_cases h2 : a > acc.balance
      · simp [Account.withdraw, h, h2]
      · simp [Account.withdraw, h, h2, Account.pushTransaction]
  · intro heap self recipient A B now1 now2 a description hA hB
    obtain ⟨ok, heap', ht⟩ :=
      transfer_returns heap self recipient A B now1 now2 a description hA hB
    refine ⟨ok, heap', ht, fun k acc hk => ?_⟩
    exact transfer_rel
      (fun x y => y.accountNumber = x.accountNumber ∧ y.accountHolder = x.accountHolder ∧
        y.accountType = x.accountType)
      (fun x => ⟨rfl, rfl, rfl⟩)
      (fun x y z hxy hyz =>
        ⟨hyz.1.trans hxy.1, hyz.2.1.trans hxy.2.1, hyz.2.2.trans hxy.2.2⟩)
      (fun x q => ⟨rfl, rfl, rfl⟩)
      (fun x t => ⟨rfl, rfl, rfl⟩)
      heap heap' self recipient now1 now2 a description ok ht k acc hk

/-! ## Transfers and the money in the bank -/

/-- C18, amended: a transfer of an account `A` to itself (`this` and `recipient` the same
entry) with `0 < a ≤ balance(A)` returns success and appends exactly two Transfer records of
amount `a` to the log of `A`: first the sender's record (description as given, or
"Transfer to <A's holder>" when empty), then "Transfer from <A's holder>"; the balance
afterwards is `(balance - a) + a` in double arithmetic, which is the old balance whenever
the subtraction `balance - a` is exact; no other entry changes. -/
theorem self_transfer (heap : AccountMap) (self : String) (A : Account) (now1 now2 : String)
    (a : Double) (description : String) (hA : heap.find self = some A)
    (hpos : 0 < a) (hle : a ≤ A.balance) :
    ∃ heap', Account.transfer heap self self now1 now2 a description = some (true, heap') ∧
      heap'.find self = some
        { A with
            balance := A.balance - a + a
            transactionHistory := A.transactionHistory ++
              [{ type := "Transfer", amount := a, timestamp := now1,
                 description :=
                   if description = "" then "Transfer to " ++ A.accountHolder
                   else description },
               { type := "Transfer", amount := a, timestamp := now2,
                 description := "Transfer from " ++ A.accountHolder }] } ∧
      (∀ k, k ≠ self → heap'.find k = heap.find k) ∧
      ((A.balance - a).Exactly (A.balance.value - a.value) →
        A.balance - a + a = A.balance) := by
  refine ⟨_, transfer_of_valid heap self self A A now1 now2 a description hA hA
    (Double.not_le_of_lt hpos) (Double.not_lt_of_le hle), ?_, ?_, ?_⟩
  · rw [AccountMap.find_modify_self, AccountMap.find_modify_self, AccountMap.find_modify_self,
      AccountMap.find_modify_self, hA]
    simp [Account.pushTransaction, Transaction.new, String.isEmpty_iff]
  · intro k hk
    rw [AccountMap.find_modify_ne _ _ _ _ hk, AccountMap.find_modify_ne _ _ _ _ hk,
      AccountMap.find_modify_ne _ _ _ _ hk, AccountMap.find_modify_ne _ _ _ _ hk]
  · exact Double.sub_add_cancel_of_exact hpos hle

/-- Witness of C18: Ann (balance 100) transfers 30 to her own account; the balance is 100
again and the log gains "Transfer to Ann" and then "Transfer from Ann". -/
theorem self_transfer_witness :
    ∃ heap',
      Account.transfer [("ACC1001", Account.new "t0" "ACC1001" "Ann" "Savings" 100)]
        "ACC1001" "ACC1001" "t1" "t2" 30 "" = some (true, heap') ∧
      heap'.find "ACC1001" = some
        { accountNumber := "ACC1001", accountHolder := "Ann", balance := 100,
          accountType := "Savings",
          transactionHistory :=
            [{ type := "Deposit", amount := 100, timestamp := "t0",
               description := "Initial deposit" },
             { type := "Transfer", amount := 30, timestamp := "t1",
               description := "Transfer to Ann" },
             { type := "Transfer", amount := 30, timestamp := "t2",
               description := "Transfer from Ann" }] } := by
  obtain ⟨heap', h, hs, _⟩ :=
    self_transfer [("ACC1001", Account.new "t0" "ACC1001" "Ann" "Savings" 100)] "ACC1001"
      (Account.new "t0" "ACC1001" "Ann" "Savings" 100) "t1" "t2" 30 ""
      (by decide) (by decide) (by decide)
  refine ⟨heap', h, ?_⟩
  rw [hs]
  decide

/-- C18 as stated fails where the double operations round: Ann (balance 9007199254740994,
which is 2^53 + 2) transfers 1 to her own account; the call succeeds and logs the two
records, yet her balance afterwards is 9007199254740992 and not what it was. -/
theorem self_transfer_rounds :
    Account.transfer
        [("ACC1001", Account.new "t0" "ACC1001" "Ann" "Savings" 9007199254740994)]
        "ACC1001" "ACC1001" "t1" "t2" 1 "" =
      some (true,
        [("ACC1001",
          { accountNumber := "ACC1001", accountHolder := "Ann", balance := 9007199254740992,
            accountType := "Savings",
            transactionHistory :=
              [{ type := "Deposit", amount := 9007199254740994, timestamp := "t0",
                 description := "Initial deposit" },
               { type := "Transfer", amount := 1, timestamp := "t1",
                 description := "Transfer to Ann" },
               { type := "Transfer", amount := 1, timestamp := "t2",
                 description := "Transfer from Ann" }] })]) ∧
    (9007199254740992 : Double) ≠ 9007199254740994 := by
  decide

theorem totalBalance_modify (k : String) (f : Account → Account) (m : AccountMap)
    (acc : Account) (h : m.find k = some acc) :
    totalBalance (m.modify k f) =
      totalBalance m + ((f acc).balance.value - acc.balance.value) := by
  induction m with
  | nil => simp [AccountMap.find] at h
  | cons kv rest ih =>
    obtain ⟨k0, v0⟩ := kv
    by_cases hk : k0 = k
    · simp only [AccountMap.find, hk, if_true, Option.some.injEq] at h
      subst h
      simp only [AccountMap.modify, hk, if_true, totalBalance, List.map_cons, List.sum_cons]
      ring
    · simp only [AccountMap.find, hk, if_false] at h
      have := ih h
      simp only [AccountMap.modify, hk, if_false, totalBalance, List.map_cons,
        List.sum_cons] at this ⊢
      rw [this]; ring

/-- The balance the recipient's entry holds when `transfer` adds the amount to it: the
recipient's own balance, or the sender's reduced balance when both are the same entry. -/
theorem recipient_after_debit (heap : AccountMap) (self recipient : String) (A B : Account)
    (a : Double) (hA : heap.find self = some A) (hB : heap.find recipient = some B) :
    (heap.modify self (fun x => { x with balance := x.balance - a })).find recipient =
      some (if self = recipient then { A with balance := A.balance - a } else B) := by
  by_cases h : self = recipient
  · subst h
    rw [AccountMap.find_modify_self, hA]
    simp
  · rw [AccountMap.find_modify_ne _ _ _ _ (Ne.symm h), hB]
    simp [h]

/-- The money in the bank after an accepted transfer, when both balance updates are exact. -/
theorem totalBalance_transfer_exact (heap : AccountMap) (self recipient : String)
    (A B : Account) (now1 now2 : String) (a : Double) (description : String)
    (hA : heap.find self = some A) (hB : heap.find recipient = some B)
    (hpos : ¬ a ≤ 0) (hle : ¬ a > A.balance)
    (hdebit : (A.balance - a).value = A.balance.value - a.value)
    (hcredit :
      ((if self = recipient then A.balance - a else B.balance) + a).value =
        (if self = recipient then A.balance - a else B.balance).value + a.value) :
    ∃ heap', Account.transfer heap self recipient now1 now2 a description = some (true, heap') ∧
      totalBalance heap' = totalBalance heap := by
  refine ⟨_, transfer_of_valid heap self recipient A B now1 now2 a description hA hB hpos hle,
    ?_⟩
  have hr1 := recipient_after_debit heap self recipient A B a hA hB
  obtain ⟨s2, hs2, -⟩ := find_modify_rel (fun _ _ => True) (fun _ => trivial) self
    (fun x => { x with balance := x.balance - a }) (fun _ => trivial) heap self A hA
  obtain ⟨s3, hs3, -⟩ := find_modify_rel (fun _ _ => True) (fun _ => trivial)
    recipient (fun x => { x with balance := x.balance + a }) (fun _ => trivial) _ self
    s2 hs2
  obtain ⟨r2, hr2, -⟩ := find_modify_rel (fun _ _ => True) (fun _ => trivial)
    recipient (fun x => { x with balance := x.balance + a }) (fun _ => trivial) _
    recipient _ hr1
  obtain ⟨r3, hr3, -⟩ := find_modify_rel (fun _ _ => True) (fun _ => trivial) self
    (Account.pushTransaction (Transaction.new now1 "Transfer" a
      (if description.isEmpty then "Transfer to " ++ B.accountHolder
       else description))) (fun _ => trivial) _ recipient r2 hr2
  rw [totalBalance_modify _ _ _ r3 hr3, totalBalance_modify _ _ _ s3 hs3,
    totalBalance_modify _ _ _ _ hr1, totalBalance_modify _ _ _ A hA]
  simp only [Account.pushTransaction]
  by_cases h : self = recipient
  · simp only [h, if_true] at hcredit ⊢
    rw [hcredit, hdebit]
    ring
  · simp only [h, if_false] at hcredit ⊢
    rw [hcredit, hdebit]
    ring

/-- C17, amended: a rejected transfer leaves the registry, and with it the sum of all
balances, as it was; an accepted transfer between two accounts of the registry (distinct or
the same) leaves the sum of all balances as it was whenever its two balance updates are
exact, that is, the sender's `balance - a` and then the recipient's `balance + a` are
finite doubles obtained with no rounding. -/
theorem transfer_conserves_total (b : Bank) (now1 now2 fromAccNum toAccNum : String)
    (a : Double) (description : String) (A B : Account)
    (hA : b.findAccount fromAccNum = some A) (hB : b.findAccount toAccNum = some B) :
    ∃ ok heap',
      Account.transfer b.accounts fromAccNum toAccNum now1 now2 a description
        = some (ok, heap') ∧
      (step b (.transfer now1 now2 fromAccNum toAccNum a description)).accounts = heap' ∧
      (ok = false ↔ (a ≤ 0 ∨ a > A.balance)) ∧
      (ok = false → heap' = b.accounts ∧ totalBalance heap' = totalBalance b.accounts) ∧
      (ok = true →
        (A.balance - a).Exactly (A.balance.value - a.value) →
        ((if fromAccNum = toAccNum then A.balance - a else B.balance) + a).Exactly
          ((if fromAccNum = toAccNum then A.balance - a else B.balance).value + a.value) →
        totalBalance heap' = totalBalance b.accounts) := by
  have hA' : b.accounts.find fromAccNum = some A := hA
  have hB' : b.accounts.find toAccNum = some B := hB
  by_cases h1 : a ≤ 0
  · have ht : Account.transfer b.accounts fromAccNum toAccNum now1 now2 a description
        = some (false, b.accounts) := by simp [Account.transfer, hA', hB', h1]
    exact ⟨false, b.accounts, ht, by simp only [step, ht], by simp [h1],
      fun _ => ⟨rfl, rfl⟩, fun h => by cases h⟩
  · by_cases h2 : a > A.balance
    · have ht : Account.transfer b.accounts fromAccNum toAccNum now1 now2 a description
          = some (false, b.accounts) := by simp [Account.transfer, hA', hB', h1, h2]
      exact ⟨false, b.accounts, ht, by simp only [step, ht], by simp [h2],
        fun _ => ⟨rfl, rfl⟩, fun h => by cases h⟩
    · have ht := transfer_of_valid b.accounts fromAccNum toAccNum A B now1 now2 a description
        hA' hB' h1 h2
      refine ⟨true, _, ht, by simp only [step, ht], by simp [h1, h2],
        fun h => absurd h (by decide), fun _ hd hc => ?_⟩
      obtain ⟨heap', ht', htot⟩ := totalBalance_transfer_exact b.accounts fromAccNum toAccNum
        A B now1 now2 a description hA' hB' h1 h2 hd.2 hc.2
      rw [ht] at ht'
      cases ht'
      exact htot

/-- Witness of C17: Ann (balance 100) transfers 30 to Bob (balance 5); both updates are
exact and the bank holds 105 before and after. -/
theorem transfer_conserves_total_witness :
    totalBalance
        (step
          { accounts :=
              [("ACC1001", Account.new "t0" "ACC1001" "Ann" "Savings" 100),
               ("ACC1002", Account.new "t1" "ACC1002" "Bob" "Checking" 5)],
            accountCounter := 1002 }
          (.transfer "t2" "t3" "ACC1001" "ACC1002" 30 "")).accounts =
      totalBalance
        [("ACC1001", Account.new "t0" "ACC1001" "Ann" "Savings" 100),
         ("ACC1002", Account.new "t1" "ACC1002" "Bob" "Checking" 5)] := by
  obtain ⟨ok, heap', _, hstep, hiff, _, hexact⟩ :=
    transfer_conserves_total
      { accounts :=
          [("ACC1001", Account.new "t0" "ACC1001" "Ann" "Savings" 100),
           ("ACC1002", Account.new "t1" "ACC1002" "Bob" "Checking" 5)],
        accountCounter := 1002 }
      "t2" "t3" "ACC1001" "ACC1002" 30 "" (Account.new "t0" "ACC1001" "Ann" "Savings" 100)
      (Account.new "t1" "ACC1002" "Bob" "Checking" 5) (by decide) (by decide)
  have hok : ok = true := by
    cases ok
    · exact absurd (hiff.mp rfl) (by decide)
    · rfl
  have h100 : (100 : Double).value = 100 := by
    simpa using value_of_nat 100 ⟨1029, by decide⟩ ⟨2533274790395904, by decide⟩ 100 (by decide) (by decide)
  have h30 : (30 : Double).value = 30 := by
    simpa using value_of_nat 30 ⟨1027, by decide⟩ ⟨3940649673949184, by decide⟩ 30 (by decide) (by decide)
  have h70 : (70 : Double).value = 70 := by
    simpa using value_of_nat 70 ⟨1029, by decide⟩ ⟨422212465065984, by decide⟩ 70 (by decide) (by decide)
  have h5 : (5 : Double).value = 5 := by
    simpa using value_of_nat 5 ⟨1025, by decide⟩ ⟨1125899906842624, by decide⟩ 5 (by decide) (by decide)
  have h35 : (35 : Double).value = 35 := by
    simpa using value_of_nat 35 ⟨1028, by decide⟩ ⟨422212465065984, by decide⟩ 35 (by decide) (by decide)
  have hsub : (100 : Double) - 30 = 70 := by decide
  have hadd : (5 : Double) + 30 = 35 := by decide
  have hne : ¬ ("ACC1001" : String) = "ACC1002" := by decide
  rw [hstep]
  refine hexact hok ?_ ?_
  · refine ⟨by decide, ?_⟩
    simp only [Account.new, hsub, h100, h30, h70]
    norm_num
  · refine ⟨by decide, ?_⟩
    simp only [Account.new, hne, if_false, hadd, h5, h30, h35]
    norm_num

/-- C17 as stated fails where the double operations round: Ann (balance 10^16) transfers 1
to Bob (balance 0); afterwards Ann holds 10^16 and Bob 1, so the bank holds 1 more than
before. -/
theorem transfer_creates_money :
    (step
        { accounts :=
            [("ACC1001", Account.new "t0" "ACC1001" "Ann" "Savings" 10000000000000000),
             ("ACC1002", Account.new "t1" "ACC1002" "Bob" "Checking" 0)],
          accountCounter := 1002 }
        (.transfer "t2" "t3" "ACC1001" "ACC1002" 1 "")).accounts.map
        (fun kv => kv.2.balance) = [10000000000000000, 1] ∧
    totalBalance
        (step
          { accounts :=
              [("ACC1001", Account.new "t0" "ACC1001" "Ann" "Savings" 10000000000000000),
               ("ACC1002", Account.new "t1" "ACC1002" "Bob" "Checking" 0)],
            accountCounter := 1002 }
          (.transfer "t2" "t3" "ACC1001" "ACC1002" 1 "")).accounts ≠
      totalBalance
        [("ACC1001", Account.new "t0" "ACC1001" "Ann" "Savings" 10000000000000000),
         ("ACC1002", Account.new "t1" "ACC1002" "Bob" "Checking" 0)] := by
  have hb : (step
        { accounts :=
            [("ACC1001", Account.new "t0" "ACC1001" "Ann" "Savings" 10000000000000000),
             ("ACC1002", Account.new "t1" "ACC1002" "Bob" "Checking" 0)],
          accountCounter := 1002 }
        (.transfer "t2" "t3" "ACC1001" "ACC1002" 1 "")).accounts.map
        (fun kv => kv.2.balance) = [10000000000000000, 1] := by decide
  refine ⟨hb, ?_⟩
  have hmap : ∀ m : AccountMap,
      totalBalance m = ((m.map (fun kv => kv.2.balance)).map Double.value).sum := by
    intro m
    simp only [totalBalance, List.map_map]
    rfl
  rw [hmap, hmap, hb]
  simp only [Account.new, List.map_cons, List.map_nil, List.sum_cons, List.sum_nil,
    value_ten_pow_16, value_one, value_zero]
  norm_num

/-! ## Invariants of the entries -/

theorem allEntries_modify (P : String → Account → Prop) (k : String) (f : Account → Account)
    (m : AccountMap) (hf : ∀ x, P k x → P k (f x)) (h : AllEntries P m) :
    AllEntries P (m.modify k f) := by
  induction m with
  | nil => exact h
  | cons kv rest ih =>
    obtain ⟨k0, v0⟩ := kv
    have h0 : P k0 v0 := h (k0, v0) (by simp)
    have hrest : AllEntries P rest := fun kv hkv => h kv (List.mem_cons_of_mem _ hkv)
    by_cases hk : k0 = k
    · simp only [AccountMap.modify, hk, if_true]
      intro kv hkv
      rcases List.mem_cons.mp hkv with e | e
      · rw [e]; exact hf v0 (hk ▸ h0)
      · exact hrest kv e
    · simp only [AccountMap.modify, hk, if_false]
      intro kv hkv
      rcases List.mem_cons.mp hkv with e | e
      · rw [e]; exact h0
      · exact ih hrest kv e

theorem allEntries_assign (P : String → Account → Prop) (k : String) (v : Account)
    (m : AccountMap) (hv : P k v) (h : AllEntries P m) : AllEntries P (m.assign k v) := by
  induction m with
  | nil =>
    intro kv hkv
    simp only [AccountMap.assign, List.mem_singleton] at hkv
    rw [hkv]; exact hv
  | cons kv rest ih =>
    obtain ⟨k0, v0⟩ := kv
    have h0 : P k0 v0 := h (k0, v0) (by simp)
    have hrest : AllEntries P rest := fun kv hkv => h kv (List.mem_cons_of_mem _ hkv)
    by_cases hk : k0 = k
    · simp only [AccountMap.assign, hk, if_true]
      intro kv hkv
      rcases List.mem_cons.mp hkv with e | e
      · rw [e]; exact hv
      · exact hrest kv e
    · simp only [AccountMap.assign, hk, if_false]
      intro kv hkv
      rcases List.mem_cons.mp hkv with e | e
      · rw [e]; exact h0
      · exact ih hrest kv e

theorem allEntries_erase (P : String → Account → Prop) (k : String) (m : AccountMap)
    (h : AllEntries P m) : AllEntries P (m.erase k) := by
  rw [erase_eq_filter]
  intro kv hkv
  exact h kv (List.mem_of_mem_filter hkv)

/-- A property of the entries that survives a balance update, a `push_back` of a record
whose amount is not `≤ 0`, and holds of a newly constructed account under its own number,
survives every request. -/
theorem allEntries_step (P : String → Account → Prop)
    (hbal : ∀ k (x : Account) (q : Double), P k x → P k { x with balance := q })
    (hpush : ∀ k (x : Account) (t : Transaction), ¬ t.amount ≤ 0 → P k x →
      P k (Account.pushTransaction t x))
    (hnew : ∀ now num holder type bal, P num (Account.new now num holder type bal))
    (b : Bank) (op : Op) (h : AllEntries P b.accounts) : AllEntries P (step b op).accounts := by
  cases op with
  | createAccount now holderName accountType initialBalance =>
    simp only [step, Bank.createAccount]
    split
    · exact h
    · exact allEntries_assign P _ _ _ (hnew _ _ _ _ _) h
  | deposit now accountNum amount description =>
    simp only [step]
    split
    · refine allEntries_modify P _ _ _ (fun x hx => ?_) h
      by_cases ha : amount ≤ 0
      · simpa [Account.deposit, ha] using hx
      · simp only [Account.deposit, ha, if_false]
        exact hpush _ _ _ ha (hbal _ _ _ hx)
    · exact h
  | withdraw now accountNum amount description =>
    simp only [step]
    split
    · refine allEntries_modify P _ _ _ (fun x hx => ?_) h
      by_cases ha : amount ≤ 0
      · simpa [Account.withdraw, ha] using hx
      · by_cases hb : amount > x.balance
        · simpa [Account.withdraw, ha, hb] using hx
        · simp only [Account.withdraw, ha, hb, if_false]
          exact hpush _ _ _ ha (hbal _ _ _ hx)
    · exact h
  | transfer now1 now2 fromAccNum toAccNum amount description =>
    simp only [step]
    split
    · rename_i ok heap ht
      simp only
      unfold Account.transfer at ht
      split at ht
      · split at ht
        · cases ht; exact h
        · split at ht
          · cases ht; exact h
          · rename_i hpos hle
            cases ht
            exact allEntries_modify P _ _ _ (fun x hx => hpush _ _ _ hpos hx)
              (allEntries_modify P _ _ _ (fun x hx => hpush _ _ _ hpos hx)
                (allEntries_modify P _ _ _ (fun x hx => hbal _ _ _ hx)
                  (allEntries_modify P _ _ _ (fun x hx => hbal _ _ _ hx) h)))
      · cases ht
    · exact h
  | deleteAccount accountNum =>
    simp only [step, Bank.deleteAccount]
    split
    · exact allEntries_erase P _ _ h
    · exact h

theorem allEntries_run (P : String → Account → Prop)
    (hbal : ∀ k (x : Account) (q : Double), P k x → P k { x with balance := q })
    (hpush : ∀ k (x : Account) (t : Transaction), ¬ t.amount ≤ 0 → P k x →
      P k (Account.pushTransaction t x))
    (hnew : ∀ now num holder type bal, P num (Account.new now num holder type bal))
    (ops : List Op) : ∀ b : Bank, AllEntries P b.accounts → AllEntries P (run b ops).accounts := by
  induction ops with
  | nil => intro b h; exact h
  | cons op ops ih =>
    intro b h
    rw [run_cons]
    exact ih _ (allEntries_step P hbal hpush hnew b op h)

/-- C13: in every bank reached from the empty bank, every key of the registry equals the
`accountNumber` of the account stored under it (for every entry, and so for every lookup);
and each request, `createAccount`, `deposit`, `withdraw`, `transfer` or `deleteAccount`,
keeps this true in any bank where it holds. -/
theorem key_equals_accountNumber :
    (∀ ops : List Op,
      AllEntries (fun k acc => acc.accountNumber = k) (run Bank.empty ops).accounts ∧
      ∀ k acc, (run Bank.empty ops).findAccount k = some acc → acc.accountNumber = k) ∧
    (∀ (b : Bank) (op : Op), AllEntries (fun k acc => acc.accountNumber = k) b.accounts →
      AllEntries (fun k acc => acc.accountNumber = k) (step b op).accounts) := by
  have hstep : ∀ (b : Bank) (op : Op),
      AllEntries (fun k acc => acc.accountNumber = k) b.accounts →
      AllEntries (fun k acc => acc.accountNumber = k) (step b op).accounts :=
    allEntries_step (fun k acc => acc.accountNumber = k) (fun _ _ _ hx => hx)
      (fun _ _ _ _ hx => hx) (fun _ _ _ _ _ => rfl)
  have hrun : ∀ ops : List Op,
      AllEntries (fun k acc => acc.accountNumber = k) (run Bank.empty ops).accounts :=
    fun ops => allEntries_run (fun k acc => acc.accountNumber = k) (fun _ _ _ hx => hx)
      (fun _ _ _ _ hx => hx) (fun _ _ _ _ _ => rfl) ops Bank.empty
      (fun _ hkv => by simp [Bank.empty] at hkv)
  exact ⟨fun ops => ⟨hrun ops, fun k acc hfind => hrun ops (k, acc) (find_mem k acc _ hfind)⟩,
    hstep⟩

/-- What the code keeps of the claim on amounts: in every bank reached from the empty bank,
no record of any log has an amount `≤ 0`, so every record whose amount is not NaN has
`amount > 0`. -/
theorem amounts_never_le_zero (ops : List Op) (k : String) (acc : Account)
    (hfind : (run Bank.empty ops).findAccount k = some acc) (t : Transaction)
    (ht : t ∈ acc.transactionHistory) :
    ¬ t.amount ≤ 0 ∧ (t.amount ≠ Double.nan → 0 < t.amount) := by
  have hrun : AllEntries (fun _ acc => ∀ t ∈ acc.transactionHistory, ¬ t.amount ≤ 0)
      (run Bank.empty ops).accounts := by
    refine allEntries_run _ (fun _ _ _ hx => hx) ?_ ?_ ops Bank.empty
      (fun _ hkv => by simp [Bank.empty] at hkv)
    · intro _ x t ht hx t' ht'
      simp only [Account.pushTransaction, List.mem_append, List.mem_singleton] at ht'
      rcases ht' with h' | h'
      · exact hx t' h'
      · rw [h']; exact ht
    · intro now num holder type bal t ht
      by_cases hb : bal > 0
      · simp only [Account.new, hb, if_true, List.mem_singleton] at ht
        rw [ht]; exact Double.not_le_of_lt hb
      · simp [Account.new, hb] at ht
  have h := hrun (k, acc) (find_mem k acc _ hfind) t ht
  exact ⟨h, fun hn => Double.lt_of_not_le hn (by decide) h⟩

/-- C14, evaluated on a run that deposits NaN: after an account is created with 100 and
`deposit(NaN)` is called on it, the call having passed the check `amount <= 0`, the log of
the account holds a Deposit record whose amount is NaN, which is not `> 0`. -/
theorem nan_amount_logged :
    (run Bank.empty
        [Op.createAccount "t0" "Ann" "Savings" 100,
         Op.deposit "t1" "ACC1001" Double.nan ""]).findAccount "ACC1001" =
      some
        { accountNumber := "ACC1001", accountHolder := "Ann", balance := Double.nan,
          accountType := "Savings",
          transactionHistory :=
            [{ type := "Deposit", amount := 100, timestamp := "t0",
               description := "Initial deposit" },
             { type := "Deposit", amount := Double.nan, timestamp := "t1",
               description := "Deposit" }] } ∧
    ¬ (0 : Double) < Double.nan := by
  decide

/-! ## Looking an account up -/

theorem find_isSome_iff_mem (n : String) (m : AccountMap) :
    (m.find n).isSome = true ↔ n ∈ m.keys := by
  rw [← not_iff_not, ← AccountMap.find_eq_none_iff]
  cases m.find n <;> simp

theorem find_isSome_of_keys_eq (m m' : AccountMap) (h : m'.keys = m.keys) (n : String) :
    (m'.find n).isSome = (m.find n).isSome := by
  have h1 := find_isSome_iff_mem n m
  have h2 := find_isSome_iff_mem n m'
  rw [h] at h2
  cases hm : (m.find n).isSome <;> cases hm' : (m'.find n).isSome <;> simp_all

theorem run_append (b : Bank) (ops ops' : List Op) :
    run b (ops ++ ops') = run (run b ops) ops' := by
  simp [run, List.foldl_append]

theorem issuedAndLive_run (n : String) (ops : List Op) :
    ∀ (b : Bank) (live : Bool), (b.accounts.find n).isSome = live →
      ((run b ops).accounts.find n).isSome = issuedAndLive n b ops live := by
  induction ops with
  | nil => intro b live h; exact h
  | cons op ops ih =>
    intro b live h
    rw [run_cons]
    cases op with
    | createAccount now holderName accountType initialBalance =>
      simp only [issuedAndLive]
      apply ih
      simp only [step, Bank.createAccount, Bank.nextAccountNum]
      by_cases e : "ACC" ++ to_string (wrap32 (b.accountCounter + 1)) = n
      · subst e
        split
        · rename_i hsome
          simp [hsome]
        · simp [AccountMap.find_assign_self]
      · have e' : n ≠ "ACC" ++ to_string (wrap32 (b.accountCounter + 1)) := fun x => e x.symm
        split
        · simp [e, h]
        · simp [e, h, AccountMap.find_assign_ne _ _ _ _ e']
    | deposit now accountNum amount description =>
      simp only [issuedAndLive]
      apply ih
      rw [← h]
      apply find_isSome_of_keys_eq
      simp only [step]
      split
      · exact AccountMap.keys_modify _ _ _
      · rfl
    | withdraw now accountNum amount description =>
      simp only [issuedAndLive]
      apply ih
      rw [← h]
      apply find_isSome_of_keys_eq
      simp only [step]
      split
      · exact AccountMap.keys_modify _ _ _
      · rfl
    | transfer now1 now2 fromAccNum toAccNum amount description =>
      simp only [issuedAndLive]
      apply ih
      rw [← h]
      apply find_isSome_of_keys_eq
      simp only [step]
      split
      · rename_i ok heap ht
        exact keys_transfer _ _ _ _ _ _ _ _ _ ht
      · rfl
    | deleteAccount accountNum =>
      simp only [issuedAndLive]
      apply ih
      simp only [step, Bank.deleteAccount]
      by_cases e : accountNum = n
      · subst e
        split
        · rename_i hsome
          simp [AccountMap.find_erase_self, hsome]
        · rename_i hnone
          simp only [Bool.not_eq_true] at hnone
          simp [hnone, ← h]
      · have e' : n ≠ accountNum := fun x => e x.symm
        split
        · simp [e, h, AccountMap.find_erase_ne _ _ _ e']
        · simp [e, h]

theorem mintedNumbers_cons_subset (b : Bank) (op : Op) (ops : List Op) (k : String)
    (h : k ∈ mintedNumbers (step b op) ops) : k ∈ mintedNumbers b (op :: ops) := by
  cases op <;> simp [mintedNumbers, h]

theorem mem_keys_run (ops : List Op) :
    ∀ (b : Bank) (k : String), k ∈ (run b ops).accounts.keys →
      k ∈ b.accounts.keys ∨ k ∈ mintedNumbers b ops := by
  induction ops with
  | nil => intro b k h; exact Or.inl h
  | cons op ops ih =>
    intro b k h
    rw [run_cons] at h
    rcases ih _ k h with h1 | h1
    · rcases keys_step b op k h1 with h2 | ⟨⟨now, holderName, accountType, bal, hop⟩, hnew⟩
      · exact Or.inl h2
      · subst hop
        exact Or.inr (by simp [mintedNumbers, hnew])
    · exact Or.inr (mintedNumbers_cons_subset b op ops k h1)

/-- C11: in every bank reached from the empty bank by a run `ops`, `findAccount(n)` returns
an account exactly when `n` was minted by a `createAccount` call of the run with no
successful `deleteAccount(n)` after it; for a number that no call of the run minted it
returns null, and so it does for a number deleted in the run and not minted again after
that; the call itself leaves the bank, registry and counter, as it was. -/
theorem findAccount_iff_issued_live (ops : List Op) (n : String) :
    ((run Bank.empty ops).findAccount n).isSome = issuedAndLive n Bank.empty ops false ∧
    (n ∉ mintedNumbers Bank.empty ops → (run Bank.empty ops).findAccount n = none) ∧
    (∀ pre post, ops = pre ++ Op.deleteAccount n :: post →
      n ∉ mintedNumbers (run Bank.empty (pre ++ [Op.deleteAccount n])) post →
      (run Bank.empty ops).findAccount n = none) ∧
    ((run Bank.empty ops).findAccountCall n).1 = (run Bank.empty ops).findAccount n ∧
    ((run Bank.empty ops).findAccountCall n).2 = run Bank.empty ops := by
  refine ⟨issuedAndLive_run n ops Bank.empty false rfl, ?_, ?_, rfl, rfl⟩
  · intro hn
    rw [Bank.findAccount, AccountMap.find_eq_none_iff]
    intro hmem
    rcases mem_keys_run ops Bank.empty n hmem with h | h
    · simp [Bank.empty, AccountMap.keys] at h
    · exact hn h
  · intro pre post hops hn
    have hsplit : pre ++ Op.deleteAccount n :: post = (pre ++ [Op.deleteAccount n]) ++ post := by
      simp
    rw [hops, hsplit, run_append, Bank.findAccount, AccountMap.find_eq_none_iff]
    intro hmem
    rcases mem_keys_run post _ n hmem with h | h
    · rw [run_append] at h
      have hdel : (run (run Bank.empty pre) [Op.deleteAccount n]).accounts.find n = none := by
        simp only [run, List.foldl_cons, List.foldl_nil, step, Bank.deleteAccount]
        split
        · exact AccountMap.find_erase_self _ _
        · rename_i hnone
          simpa using hnone
      exact (AccountMap.find_eq_none_iff _ _).mp hdel h
    · exact hn h

/-- Witness of C11: after two accounts are created and the first is deleted, "ACC1001" is
not found and "ACC1002" is, as the run's record of minted and deleted numbers says. -/
theorem findAccount_iff_issued_live_witness :
    ((run Bank.empty
        [Op.createAccount "t0" "Ann" "Savings" 10, Op.createAccount "t1" "Bob" "Checking" 0,
         Op.deleteAccount "ACC1001"]).findAccount "ACC1001").isSome = false ∧
    ((run Bank.empty
        [Op.createAccount "t0" "Ann" "Savings" 10, Op.createAccount "t1" "Bob" "Checking" 0,
         Op.deleteAccount "ACC1001"]).findAccount "ACC1002").isSome = true := by
  constructor
  · rw [(findAccount_iff_issued_live _ "ACC1001").1]
    decide
  · rw [(findAccount_iff_issued_live _ "ACC1002").1]
    decide

end BankSystem
